import Mathlib

/-!
Verification of the label-layout engine of the dsv-map repository.

The core under study lives in `create_tv_16x9_with_qr.py` and
`create_tv_simple_smart.py`: a force-directed point spreader
(`spread_overlapping_employees`), a tiered label placer (`try_placement`
with helpers `rectangles_overlap` and `count_nearby`), and a best-of-N
configuration optimizer.

Numeric model: the Python code computes with floats.  We model every
scalar as an exact rational (`Q` below, kernel-computable), and model
`math.sqrt` by the exact rational square root `Q.sqrtQ`
(`√(n/d) = isqrt (n·d) / d`), which agrees with the real square root on
perfect squares of rationals and rounds down by less than `1/den`
otherwise; in particular every comparison `sqrt s < k` against an integer
threshold `k` decides exactly as the real square root does
(see `Q.sqrtQ_lt_ofNat_iff`).  `math.cos`/`math.sin` at the eight fixed
45-degree multiples used by the placer are modelled by a fixed rational
table (`cosDeg`/`sinDeg`); no claim proved here depends on their values.
-/

namespace DsvMap

/-- Fuel-based Newton iteration for the integer square root, mirroring
the iteration of `Nat.sqrt.iter`; the fuel only bounds the number of
steps and is irrelevant once it exceeds the initial guess. -/
def isqrtAux (n : ℕ) : ℕ → ℕ → ℕ
  | 0, guess => guess
  | fuel+1, guess =>
    if (guess + n / guess) / 2 < guess then isqrtAux n fuel ((guess + n / guess) / 2)
    else guess

/-- Kernel-computable integer square root (floor); proven equal to
`Nat.sqrt` in `isqrt_eq_sqrt`. -/
def isqrt (n : ℕ) : ℕ :=
  if n ≤ 1 then n else isqrtAux n n (n / 2)

/-- Exact rational scalar (numerator over positive denominator, kept in
lowest terms by `Q.normalize`).  This is the numeric carrier for the
model of the Python float computations. -/
structure Q where
  num : ℤ
  den : ℕ
  dpos : 0 < den

namespace Q

/-- Semantics of a `Q` value as a rational number. -/
def toRat (a : Q) : ℚ := (a.num : ℚ) / (a.den : ℚ)

/-- Build the gcd-reduced fraction `n / d`. -/
def normalize (n : ℤ) (d : ℕ) (h : 0 < d) : Q :=
  let g := Nat.gcd n.natAbs d
  ⟨Int.sign n * ((n.natAbs / g : ℕ) : ℤ), d / g, by
    have hg : 0 < g := Nat.gcd_pos_of_pos_right _ h
    exact Nat.div_pos (Nat.le_of_dvd h (Nat.gcd_dvd_right _ _)) hg⟩

/-- Addition (gcd-reduced cross-multiplication). -/
def add (a b : Q) : Q :=
  normalize (a.num * b.den + b.num * a.den) (a.den * b.den) (Nat.mul_pos a.dpos b.dpos)

/-- Subtraction. -/
def sub (a b : Q) : Q :=
  normalize (a.num * b.den - b.num * a.den) (a.den * b.den) (Nat.mul_pos a.dpos b.dpos)

/-- Multiplication. -/
def mul (a b : Q) : Q :=
  normalize (a.num * b.num) (a.den * b.den) (Nat.mul_pos a.dpos b.dpos)

/-- Negation. -/
def neg (a : Q) : Q := ⟨-a.num, a.den, a.dpos⟩

/-- Embedding of an integer. -/
def ofInt (n : ℤ) : Q := ⟨n, 1, one_pos⟩

/-- Multiplicative inverse (0 for 0, matching the convention that the
source never divides by zero on executed paths). -/
def inv (a : Q) : Q :=
  if h : 0 < a.num then ⟨(a.den : ℤ), a.num.toNat, by omega⟩
  else if h2 : a.num < 0 then ⟨-(a.den : ℤ), (-a.num).toNat, by omega⟩
  else ofInt 0

/-- Division `a / b`. -/
def div (a b : Q) : Q := mul a (inv b)

/-- Absolute value, models Python `abs`. -/
def qabs (a : Q) : Q := ⟨(a.num.natAbs : ℤ), a.den, a.dpos⟩

/-- Order: `a ≤ b` by cross multiplication. -/
def le (a b : Q) : Prop := a.num * (b.den : ℤ) ≤ b.num * (a.den : ℤ)

/-- Strict order: `a < b` by cross multiplication. -/
def lt (a b : Q) : Prop := a.num * (b.den : ℤ) < b.num * (a.den : ℤ)

/-- Semantic equality by cross multiplication. -/
def eqv (a b : Q) : Prop := a.num * (b.den : ℤ) = b.num * (a.den : ℤ)

instance (a b : Q) : Decidable (a.le b) := by unfold le; infer_instance
instance (a b : Q) : Decidable (a.lt b) := by unfold lt; infer_instance
instance (a b : Q) : Decidable (a.eqv b) := by unfold eqv; infer_instance

/-- Python `min` (returns the first argument on ties). -/
def qmin (a b : Q) : Q := if b.lt a then b else a

/-- Python `max` (returns the first argument on ties). -/
def qmax (a b : Q) : Q := if a.lt b then b else a

/-- Model of `math.sqrt`: exact rational square root via
`√(n/d) = isqrt (n·d) / d`.  It is exact on perfect squares of
rationals, rounds down by less than `1/den` otherwise, and decides
every comparison against an integer threshold exactly as the real
square root does (`sqrtQ_lt_ofNat_iff`, `zero_lt_sqrtQ_iff`). -/
def sqrtQ (a : Q) : Q :=
  if a.num ≤ 0 then ofInt 0
  else ⟨(isqrt (a.num.toNat * a.den) : ℤ), a.den, a.dpos⟩

end Q

/-! ## The Point Spreader (`spread_overlapping_employees`)

Embedded from `create_tv_16x9_with_qr.py` (lines 113-164, with boundary
clamping) and `create_tv_simple_smart.py` (lines 176-224, identical but
with no clamping).  The `pid`/`method`/`zone` fields of each tuple are
carried unchanged by the source loop and are omitted from the state;
points are identified by their list index (Python dict insertion
order). -/

/-- A 2-D point (an employee's position on the floor plan). -/
structure Pt where
  x : Q
  y : Q

/-- Source `get_distance` from the source: Euclidean distance
`sqrt((p1.x-p2.x)**2 + (p1.y-p2.y)**2)`. -/
def get_distance (p1 p2 : Pt) : Q :=
  Q.sqrtQ ((((p1.x.sub p2.x)).mul ((p1.x.sub p2.x))).add
    (((p1.y.sub p2.y)).mul ((p1.y.sub p2.y))))

/-- Source `clamp(value, min_val, max_val) = max(min_val, min(max_val, value))`. -/
def clamp (value minv maxv : Q) : Q := Q.qmax minv (Q.qmin maxv value)

/-- Source `min_distance = 150`. -/
def min_distance : Q := Q.ofInt 150

/-- Source `spread_factor = 0.3` (exact decimal model of the float literal). -/
def spread_factor : Q := (Q.ofInt 3).div (Q.ofInt 10)

/-- The movement threshold `0.01` of the spreader
(`abs(force_x) > 0.01 or abs(force_y) > 0.01`). -/
def force_threshold : Q := (Q.ofInt 1).div (Q.ofInt 100)

/-- Source `max_iterations = 100`. -/
def max_iterations : ℕ := 100

/-- Inner `for j, ... in enumerate(coords_list)` loop of a spreader
round: accumulate the repulsion force on the point at index `i`
(position `(x1, y1)`), skipping `j == i` and pairs at distance `0` or
`≥ min_distance`. -/
def forceLoop (i : ℕ) (x1 y1 : Q) : List Pt → ℕ → Q × Q → Q × Q
  | [], _, acc => acc
  | p :: rest, j, (fx, fy) =>
    if i = j then forceLoop i x1 y1 rest (j+1) (fx, fy)
    else
      let dist := get_distance ⟨x1, y1⟩ p
      if dist.lt min_distance ∧ (Q.ofInt 0).lt dist then
        let dx := x1.sub p.x
        let dy := y1.sub p.y
        let fm := (min_distance.sub dist).div min_distance
        forceLoop i x1 y1 rest (j+1)
          (fx.add ((dx.div dist).mul fm), fy.add ((dy.div dist).mul fm))
      else forceLoop i x1 y1 rest (j+1) (fx, fy)

/-- Body of the `for i, ...` loop of a spreader round: compute the force
on point `i` over the current (partially updated) list, and move the
point — clamping through `clampP` — when the force exceeds the `0.01`
threshold.  Returns the updated list and whether the point moved. -/
def pointStep (clampP : Pt → Pt) (pts : List Pt) (i : ℕ) : List Pt × Bool :=
  match pts.get? i with
  | none => (pts, false)
  | some p =>
    let f := forceLoop i p.x p.y pts 0 (Q.ofInt 0, Q.ofInt 0)
    if force_threshold.lt f.1.qabs ∨ force_threshold.lt f.2.qabs then
      let newP := clampP ⟨p.x.add ((f.1.mul spread_factor).mul min_distance),
                          p.y.add ((f.2.mul spread_factor).mul min_distance)⟩
      (pts.set i newP, true)
    else (pts, false)

/-- One spreader round: visit indices `0, 1, …` in order, updating the
list in place (later points see earlier points' already-moved
positions, as in the source). -/
def roundLoop (clampP : Pt → Pt) : ℕ → ℕ → List Pt → Bool → List Pt × Bool
  | 0, _, pts, moved => (pts, moved)
  | f+1, i, pts, moved =>
    let r := pointStep clampP pts i
    roundLoop clampP f (i+1) r.1 (moved || r.2)

/-- One full round over all points (`moved` starts `False`). -/
def spreadRound (clampP : Pt → Pt) (pts : List Pt) : List Pt × Bool :=
  roundLoop clampP pts.length 0 pts false

/-- The `for iteration in range(max_iterations)` loop with the
early-exit `if not moved: break`. -/
def spreadLoop (clampP : Pt → Pt) : ℕ → List Pt → List Pt
  | 0, pts => pts
  | f+1, pts =>
    let r := spreadRound clampP pts
    if r.2 then spreadLoop clampP f r.1 else r.1

/-- Boundary clamp of the 16x9 variant: `map_margin = 100`, clamping
into `[100, boundary - 100]` on each axis. -/
def clamp16 (w h : ℤ) (p : Pt) : Pt :=
  ⟨clamp p.x (Q.ofInt 100) (Q.ofInt (w - 100)),
   clamp p.y (Q.ofInt 100) (Q.ofInt (h - 100))⟩

/-- Source `spread_overlapping_employees(boundary_width, boundary_height)` of
`create_tv_16x9_with_qr.py`: 100 rounds max, clamping to the margin. -/
def spread_overlapping_employees (w h : ℤ) (pts : List Pt) : List Pt :=
  spreadLoop (clamp16 w h) max_iterations pts

/-- Source `spread_overlapping_employees()` of `create_tv_simple_smart.py`:
identical force model, no boundary clamping. -/
def spread_overlapping_simple (pts : List Pt) : List Pt :=
  spreadLoop id max_iterations pts

/-! ## The Label Placer (`try_placement` of `create_tv_16x9_with_qr.py`)

Canvas constants: `target_width = 3840`, `side_panel_width = 800`, so
`map_area_width = 3040`; `target_height = 2160`.  Text measurement
(`draw.textbbox`) is an external collaborator: each employee record
carries its measured name/room box sizes.  The `method`, `name` and
`room` string fields are pass-through payload and are omitted from the
label tuples.  `math.cos`/`math.sin` of the eight 45-degree multiples
are modelled by the rational table `cosDeg`/`sinDeg`; no theorem below
depends on its values. -/

/-- An axis-aligned rectangle `(x0, y0, x1, y1)` as used for
`occupied_rects` entries. -/
structure Rect where
  l : Q
  t : Q
  r : Q
  b : Q

/-- Source `rectangles_overlap(r1, r2, margin)` from the source:
`not (r1[2]+m < r2[0] or r1[0]-m > r2[2] or r1[3]+m < r2[1] or r1[1]-m > r2[3])`. -/
def rectangles_overlap (r1 r2 : Rect) (margin : Q) : Bool :=
  ! (decide ((r1.r.add margin).lt r2.l) ||
     decide (r2.r.lt (r1.l.sub margin)) ||
     decide ((r1.b.add margin).lt r2.t) ||
     decide (r2.b.lt (r1.t.sub margin)))

/-- Source `count_nearby(x, y, coords, radius=300)` from the source: number of
points at distance strictly between `0` and `radius`. -/
def count_nearby (x y : Q) (coords : List Pt) (radius : ℕ) : ℕ :=
  coords.foldl (fun count p =>
    let dist := Q.sqrtQ ((((p.x.sub x)).mul ((p.x.sub x))).add
      (((p.y.sub y)).mul ((p.y.sub y))))
    if dist.lt (Q.ofInt radius) ∧ (Q.ofInt 0).lt dist then count + 1 else count) 0

/-- One entry of `employees_with_info`: `(density, x_canvas, y_canvas, emp)`
together with the externally measured text box sizes of the employee's
name and room strings. -/
structure EmpRec where
  pid : ℕ
  density : ℕ
  xc : Q
  yc : Q
  nameW : Q
  nameH : Q
  roomW : Q
  roomH : Q

/-- One entry of `label_data`:
`(person_id, x_canvas, y_canvas, label_x, label_y, method, name, room, elbow)`
with the pass-through string fields omitted. -/
structure LEntry where
  pid : ℕ
  xc : Q
  yc : Q
  lx : Q
  ly : Q
  elbow : Option (Q × Q)

/-- Source `map_area_width = target_width - side_panel_width = 3840 - 800`. -/
def map_area_width : Q := Q.ofInt 3040

/-- Source `target_height = 2160`. -/
def target_height : Q := Q.ofInt 2160

/-- Source `padding_box = 15`. -/
def padding_box : Q := Q.ofInt 15

/-- Rational model of `math.cos(math.radians(45))` (the float value
printed to 16 digits); placer theorems do not depend on this value. -/
def c45 : Q := (Q.ofInt 7071067811865476).div (Q.ofInt 10000000000000000)

/-- Rational model of `math.cos(math.radians(d))` at the eight angles
used by the placer. -/
def cosDeg : ℤ → Q
  | 0 => Q.ofInt 1
  | 45 => c45
  | 90 => Q.ofInt 0
  | 135 => c45.neg
  | 180 => Q.ofInt (-1)
  | 225 => c45.neg
  | 270 => Q.ofInt 0
  | 315 => c45
  | _ => Q.ofInt 0

/-- Rational model of `math.sin(math.radians(d))` at the eight angles
used by the placer. -/
def sinDeg : ℤ → Q
  | 0 => Q.ofInt 0
  | 45 => c45
  | 90 => Q.ofInt 1
  | 135 => c45
  | 180 => Q.ofInt 0
  | 225 => c45.neg
  | 270 => Q.ofInt (-1)
  | 315 => c45.neg
  | _ => Q.ofInt 0

/-- Source `label_width = max(name_width, room_width) + (padding_box * 2)`. -/
def label_width (e : EmpRec) : Q :=
  (Q.qmax e.nameW e.roomW).add (padding_box.mul (Q.ofInt 2))

/-- Source `label_height = (padding_box + name_height + padding_box) + 10 +
(padding_box + room_height + padding_box)`. -/
def label_height (e : EmpRec) : Q :=
  ((padding_box.add e.nameH).add padding_box).add
    ((Q.ofInt 10).add ((padding_box.add e.roomH).add padding_box))

/-- The `label_rect` used for every collision test:
`(label_x - padding_box, label_y - padding_box,
label_x + label_width + padding_box, label_y + label_height + padding_box)`. -/
def mkLabelRect (lx ly lw lh : Q) : Rect :=
  ⟨lx.sub padding_box, ly.sub padding_box,
   (lx.add lw).add padding_box, (ly.add lh).add padding_box⟩

/-- The `name_box_rect` recorded after tier 1-3 acceptance. -/
def mkNameBox (lx ly nw nh : Q) : Rect :=
  ⟨lx.sub padding_box, ly.sub padding_box,
   (lx.add nw).add padding_box, (ly.add nh).add padding_box⟩

/-- Source `room_y_pos = label_y + name_height + padding_box + 10`. -/
def room_y_pos (ly nh : Q) : Q := ((ly.add nh).add padding_box).add (Q.ofInt 10)

/-- The `room_box_rect` recorded after tier 1-3 acceptance. -/
def mkRoomBox (lx ly nh rw rh : Q) : Rect :=
  ⟨lx.sub padding_box, (room_y_pos ly nh).sub padding_box,
   (lx.add rw).add padding_box, ((room_y_pos ly nh).add rh).add padding_box⟩

/-- The bounds rejection test shared by all tiers:
`label_x - padding_box < 50 or label_x + label_width + padding_box >
map_area_width - 50 or …` (tiers 3-5 use the equivalent conjunctive
form). -/
def outOfBounds (lx ly lw lh : Q) : Bool :=
  decide ((lx.sub padding_box).lt (Q.ofInt 50)) ||
  decide ((map_area_width.sub (Q.ofInt 50)).lt ((lx.add lw).add padding_box)) ||
  decide ((ly.sub padding_box).lt (Q.ofInt 50)) ||
  decide ((target_height.sub (Q.ofInt 50)).lt ((ly.add lh).add padding_box))

/-- Elbow-point bounds test of tiers 3 and 5:
`elbow_x >= 50 and elbow_x <= map_area_width - 50 and elbow_y >= 50 and
elbow_y <= target_height - 50`. -/
def elbowInBounds (ex ey : Q) : Bool :=
  decide ((Q.ofInt 50).le ex) && decide (ex.le (map_area_width.sub (Q.ofInt 50))) &&
  decide ((Q.ofInt 50).le ey) && decide (ey.le (target_height.sub (Q.ofInt 50)))

/-- The `for occupied in occupied_rects: if rectangles_overlap(...)`
loop (with `break`). -/
def anyCollision (occ : List Rect) (r : Rect) (margin : Q) : Bool :=
  occ.any (fun o => rectangles_overlap r o margin)

/-- An accepted candidate: label position, optional elbow point, the
rectangles to append to `occupied_rects`, and the score penalty of the
tier that produced it. -/
structure Accept where
  lx : Q
  ly : Q
  elbow : Option (Q × Q)
  rects : List Rect
  sd : ℕ

/-- First `some` result of `f` over a list (the `for … break` search
pattern of the source). -/
def firstHit {α β : Type} (f : α → Option β) : List α → Option β
  | [] => none
  | a :: rest =>
    match f a with
    | some b => some b
    | none => firstHit f rest

/-- Density-scaled radius ladder of tier 1. -/
def distances_for (density : ℕ) : List ℤ :=
  if 5 ≤ density then [300, 400, 500, 600, 700, 800]
  else if 3 ≤ density then [250, 350, 450, 550, 650]
  else [180, 250, 320, 400, 500]

/-- Density-scaled collision margin of tier 1:
`40 if density >= 5 else (30 if density >= 3 else 20)`. -/
def collision_margin_for (density : ℕ) : Q :=
  if 5 ≤ density then Q.ofInt 40 else if 3 ≤ density then Q.ofInt 30 else Q.ofInt 20

/-- One radial candidate (tiers 1, 2 and 4): position
`anchor + dist * (cos angle, sin angle)`, rejected on bounds or
collision. -/
def tryAngleDist (occ : List Rect) (e : EmpRec) (margin : Q) (dist : ℤ)
    (ang : ℤ) : Option (Q × Q) :=
  let lx := e.xc.add ((Q.ofInt dist).mul (cosDeg ang))
  let ly := e.yc.add ((Q.ofInt dist).mul (sinDeg ang))
  if outOfBounds lx ly (label_width e) (label_height e) then none
  else if anyCollision occ (mkLabelRect lx ly (label_width e) (label_height e)) margin then none
  else some (lx, ly)

/-- The two line boxes recorded on acceptance in tiers 1-3. -/
def lineBoxes (e : EmpRec) (lx ly : Q) : List Rect :=
  [mkNameBox lx ly e.nameW e.nameH, mkRoomBox lx ly e.nameH e.roomW e.roomH]

/-- Tier 1: direct radial placement, density-scaled radii and margin,
score penalty 0, records the two line boxes. -/
def tier1 (occ : List Rect) (e : EmpRec) (prefs : List ℤ) : Option Accept :=
  firstHit (fun dist =>
    firstHit (fun ang =>
      (tryAngleDist occ e (collision_margin_for e.density) dist ang).map
        (fun c => ⟨c.1, c.2, none, lineBoxes e c.1 c.2, 0⟩)) prefs)
    (distances_for e.density)

/-- Tier 2: extended radial fallback, radii `[600..1000]`, margin 20,
score penalty 1, records the two line boxes. -/
def tier2 (occ : List Rect) (e : EmpRec) (prefs : List ℤ) : Option Accept :=
  firstHit (fun dist =>
    firstHit (fun ang =>
      (tryAngleDist occ e (Q.ofInt 20) dist ang).map
        (fun c => ⟨c.1, c.2, none, lineBoxes e c.1 c.2, 1⟩)) prefs)
    [600, 700, 800, 900, 1000]

/-- The `elbow_routes` table of tier 3 (verbatim from the source). -/
def elbow_routes : List (ℤ × ℤ × ℤ × ℤ) :=
  [(0, -150, -300, -150), (0, -200, -400, -200), (0, -200, -600, -200),
   (0, -200, -800, -200), (0, -200, -1000, -200), (0, -300, -500, -300),
   (0, -300, -700, -300), (0, -300, -900, -300), (0, -400, -600, -400),
   (0, -400, -800, -400), (0, -400, -1000, -400), (0, 150, -300, 150),
   (0, 200, -400, 200), (0, 200, -600, 200), (0, 200, -800, 200),
   (0, 200, -1000, 200), (0, 300, -500, 300), (0, 300, -700, 300),
   (0, 300, -900, 300), (0, 400, -600, 400), (0, 400, -800, 400),
   (0, 400, -1000, 400), (0, -200, 400, -200), (0, -200, 600, -200),
   (0, 200, 400, 200), (0, 200, 600, 200), (-200, 0, -400, -200),
   (-200, 0, -400, 200), (-300, 0, -500, -250), (-300, 0, -500, 250),
   (-400, 0, -600, -300), (-400, 0, -600, 300), (-500, 0, -700, -350),
   (-500, 0, -700, 350), (300, 0, 300, -250), (300, 0, 300, 250)]

/-- One elbow-route candidate (tiers 3 and 5): checks label bounds,
elbow bounds, then collision at the given margin. -/
def tryRoute (occ : List Rect) (e : EmpRec) (margin : Q)
    (route : ℤ × ℤ × ℤ × ℤ) : Option (Q × Q × Q × Q) :=
  let ex := e.xc.add (Q.ofInt route.1)
  let ey := e.yc.add (Q.ofInt route.2.1)
  let lx := e.xc.add (Q.ofInt route.2.2.1)
  let ly := e.yc.add (Q.ofInt route.2.2.2)
  if outOfBounds lx ly (label_width e) (label_height e) then none
  else if ! elbowInBounds ex ey then none
  else if anyCollision occ (mkLabelRect lx ly (label_width e) (label_height e)) margin then none
  else some (ex, ey, lx, ly)

/-- Tier 3: curated elbow routes, margin 15, score penalty 5, records
the two line boxes. -/
def tier3 (occ : List Rect) (e : EmpRec) : Option Accept :=
  firstHit (fun route =>
    (tryRoute occ e (Q.ofInt 15) route).map
      (fun c => ⟨c.2.2.1, c.2.2.2, some (c.1, c.2.1),
        lineBoxes e c.2.2.1 c.2.2.2, 5⟩)) elbow_routes

/-- Tier 4: exhaustive angular fallback at fixed radii with a left-biased
angle order, margin 10, score penalty 10; records the full tested
`label_rect` itself. -/
def tier4 (occ : List Rect) (e : EmpRec) : Option Accept :=
  firstHit (fun dist =>
    firstHit (fun ang =>
      (tryAngleDist occ e (Q.ofInt 10) dist ang).map
        (fun c => ⟨c.1, c.2, none,
          [mkLabelRect c.1 c.2 (label_width e) (label_height e)], 10⟩))
      [180, 225, 135, 270, 90, 315, 45, 0])
    [200, 300, 400, 500, 600, 700, 800]

/-- The `extreme_routes` table of tier 5 (verbatim from the source). -/
def extreme_routes : List (ℤ × ℤ × ℤ × ℤ) :=
  [(0, -300, -1200, -500), (0, -400, -1000, -600), (0, -500, -800, -700),
   (0, 300, -1200, 500), (0, 400, -1000, 600), (0, 500, -800, 700),
   (-200, 0, -1000, -100), (-200, 0, -1000, 100), (-300, 0, -1200, -150),
   (-300, 0, -1200, 150)]

/-- Tier 5: extreme elbow routes, margin 5, score penalty 20; records
the tested `label_rect`. -/
def tier5 (occ : List Rect) (e : EmpRec) : Option Accept :=
  firstHit (fun route =>
    (tryRoute occ e (Q.ofInt 5) route).map
      (fun c => ⟨c.2.2.1, c.2.2.2, some (c.1, c.2.1),
        [mkLabelRect c.2.2.1 c.2.2.2 (label_width e) (label_height e)], 20⟩))
    extreme_routes

/-- Source `range(start, stop, step)` of Python for positive step. -/
def rangeStep (start stop step : ℕ) : List ℕ :=
  (List.range ((stop - start + step - 1) / step)).map (fun k => start + k * step)

/-- Tier 6: grid scan of the left third of the drawable area
(`range(100, target_height - 200, 80)` by `range(100, map_area_width // 3, 80)`),
margin 5, score penalty 50; synthesizes an elbow toward the found cell
and records the tested `label_rect`. -/
def tier6 (occ : List Rect) (e : EmpRec) : Option Accept :=
  firstHit (fun sy =>
    firstHit (fun sx =>
      let lr := mkLabelRect (Q.ofInt sx) (Q.ofInt sy) (label_width e) (label_height e)
      if anyCollision occ lr (Q.ofInt 5) then none
      else
        let ey := if (Q.ofInt sy).lt e.yc then Q.ofInt ((sy : ℤ) + 100)
                  else Q.ofInt ((sy : ℤ) - 100)
        some ⟨Q.ofInt sx, Q.ofInt sy, some (e.xc, ey), [lr], 50⟩)
      (rangeStep 100 (3040 / 3) 80))
    (rangeStep 100 (2160 - 200) 80)

/-- The tier cascade of `try_placement`, attempted strictly in order. -/
def searchTiers (occ : List Rect) (e : EmpRec) (prefs : List ℤ) : Option Accept :=
  match tier1 occ e prefs with
  | some a => some a
  | none =>
    match tier2 occ e prefs with
    | some a => some a
    | none =>
      match tier3 occ e with
      | some a => some a
      | none =>
        match tier4 occ e with
        | some a => some a
        | none =>
          match tier5 occ e with
          | some a => some a
          | none => tier6 occ e

/-- Tier 7, the forced ultimate fallback: `label_x = 100`,
`label_y = min(100 + len(label_data) * 100, target_height - 200)`, elbow
back to the anchor; appends nothing to `occupied_rects`. -/
def forcedPlacement (e : EmpRec) (numPlaced : ℕ) : LEntry :=
  let ly := Q.qmin (Q.ofInt (100 + (numPlaced : ℤ) * 100)) (target_height.sub (Q.ofInt 200))
  ⟨e.pid, e.xc, e.yc, Q.ofInt 100, ly, some (e.xc, ly)⟩

/-- Placement of a single employee: the tier cascade, falling back to
the forced placement.  Returns the label entry, the updated
`occupied_rects`, and the score penalty added. -/
def placeOne (occ : List Rect) (e : EmpRec) (prefs : List ℤ)
    (numPlaced : ℕ) : LEntry × List Rect × ℕ :=
  match searchTiers occ e prefs with
  | some a => (⟨e.pid, e.xc, e.yc, a.lx, a.ly, a.elbow⟩, occ ++ a.rects, a.sd)
  | none => (forcedPlacement e numPlaced, occ, 100)

/-- The `for density, x_canvas, y_canvas, emp in employee_order` loop of
`try_placement`. -/
def placeLoop (prefs : List ℤ) :
    List EmpRec → List Rect → List LEntry → ℕ → List LEntry × List Rect × ℕ
  | [], occ, acc, score => (acc, occ, score)
  | e :: rest, occ, acc, score =>
    let r := placeOne occ e prefs acc.length
    placeLoop prefs rest r.2.1 (acc ++ [r.1]) (score + r.2.2)

/-- Source `try_placement(employee_order, angle_prefs)` together with its final
`occupied_rects` state (exposed for the occupancy invariants). -/
def tryPlacementFull (order : List EmpRec) (prefs : List ℤ)
    (base : List Rect) : List LEntry × List Rect × ℕ :=
  placeLoop prefs order base [] 0

/-- Source `try_placement(employee_order, angle_prefs)`: `(label_data, score)`.
`occupied_rects` starts from a fresh copy of `base_occupied_rects`. -/
def try_placement (order : List EmpRec) (prefs : List ℤ)
    (base : List Rect) : List LEntry × ℕ :=
  ((tryPlacementFull order prefs base).1, (tryPlacementFull order prefs base).2.2)

/-! ## The multi-trial optimizer -/

/-- Source `angle_configs` (verbatim). -/
def angle_configs : List (List ℤ) :=
  [[315, 45, 270, 225, 0, 135, 90, 180],
   [225, 315, 180, 270, 135, 45, 90, 0],
   [180, 225, 135, 270, 90, 315, 45, 0],
   [270, 225, 315, 180, 0, 135, 45, 90],
   [45, 315, 0, 90, 270, 135, 225, 180]]

/-- Strict lexicographic comparison of a two-component key. -/
def lex2lt (a1 a2 b1 b2 : Q) : Bool :=
  decide (a1.lt b1) || (decide (a1.eqv b1) && decide (a2.lt b2))

/-- Key `(-density, xc, yc)` of `density_desc`. -/
def ltDensityDesc (a b : EmpRec) : Bool :=
  decide (b.density < a.density) ||
    (decide (a.density = b.density) && lex2lt a.xc a.yc b.xc b.yc)

/-- Key `(density, xc, yc)` of `density_asc`. -/
def ltDensityAsc (a b : EmpRec) : Bool :=
  decide (a.density < b.density) ||
    (decide (a.density = b.density) && lex2lt a.xc a.yc b.xc b.yc)

/-- Key `(xc, yc)` of `left_to_right`. -/
def ltLeftToRight (a b : EmpRec) : Bool := lex2lt a.xc a.yc b.xc b.yc

/-- Key `(-xc, yc)` of `right_to_left`. -/
def ltRightToLeft (a b : EmpRec) : Bool :=
  decide (b.xc.lt a.xc) || (decide (a.xc.eqv b.xc) && decide (a.yc.lt b.yc))

/-- Key `(yc, xc)` of `top_to_bottom`. -/
def ltTopToBottom (a b : EmpRec) : Bool := lex2lt a.yc a.xc b.yc b.xc

/-- Stable insertion of `x` behind all earlier elements whose key is not
greater. -/
def insertBy {α : Type} (ltB : α → α → Bool) (x : α) : List α → List α
  | [] => [x]
  | y :: ys => if ltB x y then x :: y :: ys else y :: insertBy ltB x ys

/-- Model of Python's stable `sorted(..., key=...)` (insertion sort;
any stable sort computes the same list). -/
def sortStable {α : Type} (ltB : α → α → Bool) (l : List α) : List α :=
  l.foldl (fun acc x => insertBy ltB x acc) []

/-- Source `sort_configs` (name, strict key comparison). -/
def sort_configs : List (String × (EmpRec → EmpRec → Bool)) :=
  [("density_desc", ltDensityDesc), ("density_asc", ltDensityAsc),
   ("left_to_right", ltLeftToRight), ("right_to_left", ltRightToLeft),
   ("top_to_bottom", ltTopToBottom)]

/-- Source `num_attempts = min(len(angle_configs) * len(sort_configs), 15)`. -/
def num_attempts : ℕ := min (angle_configs.length * sort_configs.length) 15

/-- The evaluated trial configurations: angle-major enumeration capped
at `num_attempts` (the `attempt >= num_attempts: break` logic). -/
def trialConfigs : List (List ℤ × String × (EmpRec → EmpRec → Bool)) :=
  ((angle_configs.map (fun ap => sort_configs.map (fun sc => (ap, sc)))).flatten).take
    num_attempts

/-- Running best of the trial loop: `best_score` (`none` models the
initial `float('inf')`), `best_label_data`, `best_config`. -/
structure BestState where
  bestScore : Option ℕ
  bestData : List LEntry
  bestCfg : Option (String × ℤ)

/-- Source `score < best_score` (strict, so the first minimum is kept). -/
def scoreLt (s : ℕ) : Option ℕ → Bool
  | none => true
  | some b => decide (s < b)

/-- A trial configuration: angle preference list, sort name and sort
comparator. -/
abbrev TrialCfg := List ℤ × String × (EmpRec → EmpRec → Bool)

/-- The score of one trial: `try_placement(sorted_employees, angle_prefs)[1]`. -/
def trialScore (emps : List EmpRec) (base : List Rect) (cfg : TrialCfg) : ℕ :=
  (try_placement (sortStable cfg.2.2 emps) cfg.1 base).2

/-- The label data of one trial. -/
def trialData (emps : List EmpRec) (base : List Rect) (cfg : TrialCfg) : List LEntry :=
  (try_placement (sortStable cfg.2.2 emps) cfg.1 base).1

/-- Source `best_config = (sort_name, angle_prefs[0])`. -/
def trialTag (cfg : TrialCfg) : String × ℤ := (cfg.2.1, cfg.1.headD 0)

/-- The best-state recorded when a trial improves on the running best. -/
def mkBest (emps : List EmpRec) (base : List Rect) (cfg : TrialCfg) : BestState :=
  ⟨some (trialScore emps base cfg), trialData emps base cfg, some (trialTag cfg)⟩

/-- One step of the trial loop: keep the new configuration only on a
strict score improvement. -/
def trialStep (emps : List EmpRec) (base : List Rect) (st : BestState)
    (cfg : TrialCfg) : BestState :=
  if scoreLt (trialScore emps base cfg) st.bestScore then mkBest emps base cfg else st

/-- The trial loop of the optimizer. -/
def runTrials (emps : List EmpRec) (base : List Rect) : BestState :=
  trialConfigs.foldl (trialStep emps base) ⟨none, [], none⟩

/-- The committed result: the best configuration is looked up again (by
sort name and by first angle) and re-run once more; its `label_data` is
committed.  The `none` fallbacks model the unreachable
`label_data = best_label_data` branches of the source. -/
def calculate_label_positions (emps : List EmpRec) (base : List Rect) : List LEntry :=
  let st := runTrials emps base
  match st.bestCfg with
  | none => st.bestData
  | some cfg =>
    match sort_configs.find? (fun c => c.1 == cfg.1) with
    | none => st.bestData
    | some sc =>
      match angle_configs.find? (fun ap => ap.headD 0 == cfg.2) with
      | none => st.bestData
      | some ap => (try_placement (sortStable sc.2 emps) ap base).1

/-! ## Concrete inputs and semantic helpers used by the theorems -/

/-- Default point for list indexing. -/
def ptZero : Pt := ⟨Q.ofInt 0, Q.ofInt 0⟩

/-- The spec's concrete spreader scenario: three points at
`(100,100)`, `(105,100)`, `(300,300)`. -/
def initC5 : List Pt :=
  [⟨Q.ofInt 100, Q.ofInt 100⟩, ⟨Q.ofInt 105, Q.ofInt 100⟩, ⟨Q.ofInt 300, Q.ofInt 300⟩]

/-- Two points on a horizontal line at gap `149`, just inside
`min_distance` but with repulsion force below the `0.01` threshold. -/
def initNearMiss : List Pt := [⟨Q.ofInt 0, Q.ofInt 0⟩, ⟨Q.ofInt 149, Q.ofInt 0⟩]

/-- A concrete placement request: density 0, anchor at canvas
`(1500, 1000)`, name box 100x40, room box 80x30. -/
def empC3 : EmpRec :=
  ⟨7, 0, Q.ofInt 1500, Q.ofInt 1000, Q.ofInt 100, Q.ofInt 40, Q.ofInt 80, Q.ofInt 30⟩

/-- The profile-picture rectangle reserved for `empC3`
(`(x-48, y-48, x+48, y+48)`). -/
def picC3 : Rect := ⟨Q.ofInt 1452, Q.ofInt 952, Q.ofInt 1548, Q.ofInt 1048⟩

/-- The default angle preference list (`angle_configs[0]`). -/
def anglesDefault : List ℤ := [315, 45, 270, 225, 0, 135, 90, 180]

/-- The first tier-1 candidate for `empC3`: `dist = 180`, angle `315`. -/
def lxC3 : Q := (Q.ofInt 1500).add ((Q.ofInt 180).mul (cosDeg 315))

/-- The `y` of the first tier-1 candidate for `empC3`. -/
def lyC3 : Q := (Q.ofInt 1000).add ((Q.ofInt 180).mul (sinDeg 315))

/-- A rectangle covering the whole drawable area, so that every tier
1-6 candidate collides and placement falls through to the forced
tier 7. -/
def blockRect : Rect :=
  ⟨Q.ofInt (-1000000), Q.ofInt (-1000000), Q.ofInt 1000000, Q.ofInt 1000000⟩

/-- The semantic (rational-valued) repulsion contribution of one
neighbor `p` on a point at `(x1, y1)` — the summand of the spec's force
formula, with `actualDistance` the distance the code computes. -/
def contrib (x1 y1 : Q) (p : Pt) : ℚ × ℚ :=
  let d := (get_distance ⟨x1, y1⟩ p).toRat
  if 0 < d ∧ d < 150 then
    (((x1.toRat - p.x.toRat) / d) * ((150 - d) / 150),
     ((y1.toRat - p.y.toRat) / d) * ((150 - d) / 150))
  else (0, 0)

/-- Coordinates within the 16x9 boundary margin
(`[100, boundary - 100]` on each axis). -/
def inMargin (w h : ℤ) (p : Pt) : Prop :=
  (100 : ℚ) ≤ p.x.toRat ∧ p.x.toRat ≤ (w : ℚ) - 100 ∧
  (100 : ℚ) ≤ p.y.toRat ∧ p.y.toRat ≤ (h : ℚ) - 100

/-- The spreader boundary invariant: every current point either still
has its original position or lies within the boundary margin. -/
def MarginInv (w h : ℤ) (pts0 pts : List Pt) : Prop :=
  ∀ i p, pts.get? i = some p → pts0.get? i = some p ∨ inMargin w h p

/-- Containment of `r1` in `r2` (semantically). -/
def RectInside (r1 r2 : Rect) : Prop :=
  r2.l.toRat ≤ r1.l.toRat ∧ r2.t.toRat ≤ r1.t.toRat ∧
  r1.r.toRat ≤ r2.r.toRat ∧ r1.b.toRat ≤ r2.b.toRat

/-- The recorded-versus-tested relation that actually holds for tier
1-3 acceptances: both recorded line boxes lie inside the tested
combined `label_rect`, with the right edges at least `2 * padding_box`
tighter and the room box bottom exactly `3 * padding_box` tighter. -/
def TighterSpec (e : EmpRec) (lx ly : Q) : Prop :=
  RectInside (mkNameBox lx ly e.nameW e.nameH)
    (mkLabelRect lx ly (label_width e) (label_height e)) ∧
  RectInside (mkRoomBox lx ly e.nameH e.roomW e.roomH)
    (mkLabelRect lx ly (label_width e) (label_height e)) ∧
  (mkNameBox lx ly e.nameW e.nameH).r.toRat + 30 ≤
    (mkLabelRect lx ly (label_width e) (label_height e)).r.toRat ∧
  (mkRoomBox lx ly e.nameH e.roomW e.roomH).r.toRat + 30 ≤
    (mkLabelRect lx ly (label_width e) (label_height e)).r.toRat ∧
  (mkRoomBox lx ly e.nameH e.roomW e.roomH).b.toRat + 45 =
    (mkLabelRect lx ly (label_width e) (label_height e)).b.toRat

/-! ## Helper lemmas -/

theorem isqrtAux_eq_iter (n : ℕ) :
    ∀ fuel guess, guess ≤ fuel → isqrtAux n fuel guess = Nat.sqrt.iter n guess := by
  intro fuel
  induction fuel with
  | zero =>
    intro guess hg
    have hz : guess = 0 := Nat.le_zero.mp hg
    subst hz
    rw [isqrtAux]
    unfold Nat.sqrt.iter
    simp
  | succ f ih =>
    intro guess hg
    by_cases h : (guess + n / guess) / 2 < guess
    · have h1 : isqrtAux n (f+1) guess = isqrtAux n f ((guess + n / guess) / 2) := by
        rw [isqrtAux, if_pos h]
      have h2 : Nat.sqrt.iter n guess = Nat.sqrt.iter n ((guess + n / guess) / 2) := by
        conv_lhs => unfold Nat.sqrt.iter
        simp only [dif_pos h]
      rw [h1, h2]
      exact ih _ (by omega)
    · have h1 : isqrtAux n (f+1) guess = guess := by
        rw [isqrtAux, if_neg h]
      have h2 : Nat.sqrt.iter n guess = guess := by
        conv_lhs => unfold Nat.sqrt.iter
        simp only [dif_neg h]
      rw [h1, h2]

theorem isqrt_eq_sqrt (n : ℕ) : isqrt n = Nat.sqrt n := by
  unfold isqrt Nat.sqrt
  by_cases h : n ≤ 1
  · simp [h]
  · simp only [h, if_false]
    exact isqrtAux_eq_iter n n (n / 2) (Nat.div_le_self n 2)

namespace Q

theorem den_ne_zero (a : Q) : (a.den : ℚ) ≠ 0 :=
  Nat.cast_ne_zero.mpr a.dpos.ne'

theorem den_pos_rat (a : Q) : (0 : ℚ) < (a.den : ℚ) := by exact_mod_cast a.dpos

theorem toRat_normalize (n : ℤ) (d : ℕ) (h : 0 < d) :
    (normalize n d h).toRat = (n : ℚ) / (d : ℚ) := by
  unfold normalize toRat
  simp only
  set g := Nat.gcd n.natAbs d with hgdef
  have hg : 0 < g := Nat.gcd_pos_of_pos_right _ h
  obtain ⟨a, ha⟩ : g ∣ n.natAbs := Nat.gcd_dvd_left _ _
  obtain ⟨b, hb⟩ : g ∣ d := Nat.gcd_dvd_right _ _
  have h1 : n.natAbs / g = a := by rw [ha]; exact Nat.mul_div_cancel_left a hg
  have h2 : d / g = b := by rw [hb]; exact Nat.mul_div_cancel_left b hg
  rw [h1, h2]
  have hgQ : ((g : ℚ)) ≠ 0 := by exact_mod_cast hg.ne'
  have key : (n : ℚ) = (Int.sign n : ℚ) * (g : ℚ) * (a : ℚ) := by
    have hs : Int.sign n * ((g * a : ℕ) : ℤ) = n := by
      rw [← ha]
      exact Int.sign_mul_natAbs n
    calc (n : ℚ) = ((Int.sign n * ((g * a : ℕ) : ℤ) : ℤ) : ℚ) := by rw [hs]
      _ = (Int.sign n : ℚ) * (g : ℚ) * (a : ℚ) := by push_cast; ring
  have keyd : ((d : ℕ) : ℚ) = (g : ℚ) * (b : ℚ) := by
    rw [hb]
    push_cast
    ring
  rw [key, keyd]
  push_cast
  rw [show ((Int.sign n : ℚ) * (g : ℚ) * (a : ℚ)) = (g : ℚ) * ((Int.sign n : ℚ) * (a : ℚ)) by ring]
  rw [mul_div_mul_left _ _ hgQ]

theorem le_iff (a b : Q) : a.le b ↔ a.toRat ≤ b.toRat := by
  unfold le toRat
  rw [div_le_div_iff₀ a.den_pos_rat b.den_pos_rat]
  constructor <;> intro h <;> exact_mod_cast h

theorem lt_iff (a b : Q) : a.lt b ↔ a.toRat < b.toRat := by
  unfold lt toRat
  rw [div_lt_div_iff₀ a.den_pos_rat b.den_pos_rat]
  constructor <;> intro h <;> exact_mod_cast h

theorem eqv_iff (a b : Q) : a.eqv b ↔ a.toRat = b.toRat := by
  unfold eqv toRat
  rw [div_eq_div_iff a.den_ne_zero b.den_ne_zero]
  constructor <;> intro h <;> exact_mod_cast h

theorem toRat_add (a b : Q) : (a.add b).toRat = a.toRat + b.toRat := by
  unfold add
  rw [toRat_normalize]
  unfold toRat
  rw [div_add_div _ _ a.den_ne_zero b.den_ne_zero]
  push_cast
  ring_nf

theorem toRat_sub (a b : Q) : (a.sub b).toRat = a.toRat - b.toRat := by
  unfold sub
  rw [toRat_normalize]
  unfold toRat
  rw [div_sub_div _ _ a.den_ne_zero b.den_ne_zero]
  push_cast
  ring_nf

theorem toRat_mul (a b : Q) : (a.mul b).toRat = a.toRat * b.toRat := by
  unfold mul
  rw [toRat_normalize]
  unfold toRat
  rw [div_mul_div_comm]
  push_cast
  ring_nf

theorem toRat_neg (a : Q) : a.neg.toRat = -a.toRat := by
  unfold neg toRat
  push_cast
  ring

theorem toRat_ofInt (n : ℤ) : (ofInt n).toRat = (n : ℚ) := by
  unfold ofInt toRat
  simp

theorem toRat_inv (a : Q) : a.inv.toRat = (a.toRat)⁻¹ := by
  unfold inv
  by_cases h : 0 < a.num
  · simp only [dif_pos h]
    unfold toRat
    rw [inv_div]
    have h1 : ((a.num.toNat : ℕ) : ℚ) = (a.num : ℚ) := by
      exact_mod_cast Int.toNat_of_nonneg h.le
    rw [h1]
    norm_cast
  · simp only [dif_neg h]
    by_cases h2 : a.num < 0
    · simp only [dif_pos h2]
      unfold toRat
      rw [inv_div]
      have h1 : (((-a.num).toNat : ℕ) : ℚ) = -(a.num : ℚ) := by
        exact_mod_cast Int.toNat_of_nonneg (by omega : (0:ℤ) ≤ -a.num)
      rw [h1]
      push_cast
      rw [neg_div_neg_eq]
    · have hz : a.num = 0 := by omega
      simp only [dif_neg h2]
      rw [toRat_ofInt]
      unfold toRat
      rw [hz]
      simp

theorem toRat_div (a b : Q) : (a.div b).toRat = a.toRat / b.toRat := by
  unfold div
  rw [toRat_mul, toRat_inv, div_eq_mul_inv]

theorem toRat_qabs (a : Q) : a.qabs.toRat = |a.toRat| := by
  unfold qabs toRat
  simp only
  rw [abs_div, abs_of_pos a.den_pos_rat]
  congr 1
  exact_mod_cast (Int.abs_eq_natAbs a.num).symm

theorem toRat_qmin (a b : Q) : (qmin a b).toRat = min a.toRat b.toRat := by
  unfold qmin
  by_cases h : b.lt a
  · rw [if_pos h, min_eq_right ((lt_iff b a).mp h).le]
  · rw [if_neg h, min_eq_left (not_lt.mp (fun hc => h ((lt_iff b a).mpr hc)))]

theorem toRat_qmax (a b : Q) : (qmax a b).toRat = max a.toRat b.toRat := by
  unfold qmax
  by_cases h : a.lt b
  · rw [if_pos h, max_eq_right ((lt_iff a b).mp h).le]
  · rw [if_neg h, max_eq_left (not_lt.mp (fun hc => h ((lt_iff a b).mpr hc)))]

theorem toRat_nonneg_iff (a : Q) : 0 ≤ a.toRat ↔ 0 ≤ a.num := by
  unfold toRat
  rw [le_div_iff₀ a.den_pos_rat, zero_mul]
  exact ⟨fun h => by exact_mod_cast h, fun h => by exact_mod_cast h⟩

theorem toRat_pos_iff (a : Q) : 0 < a.toRat ↔ 0 < a.num := by
  unfold toRat
  rw [lt_div_iff₀ a.den_pos_rat, zero_mul]
  exact ⟨fun h => by exact_mod_cast h, fun h => by exact_mod_cast h⟩

/-- The modelled `sqrt` compares against integer thresholds exactly as
the real square root: `sqrt a < k ↔ a < k²`. -/
theorem sqrtQ_lt_ofNat_iff (a : Q) (k : ℕ) (ha : 0 ≤ a.toRat) :
    (sqrtQ a).lt (ofInt k) ↔ a.toRat < (k : ℚ) * (k : ℚ) := by
  unfold sqrtQ
  by_cases h : a.num ≤ 0
  · have hz : a.num = 0 := le_antisymm h ((toRat_nonneg_iff a).mp ha)
    have hz' : a.toRat = 0 := by unfold toRat; rw [hz]; simp
    rw [if_pos h, hz']
    unfold lt ofInt
    simp only [Nat.cast_one, mul_one, zero_mul]
    constructor
    · intro hlt
      have hk : 0 < k := by exact_mod_cast hlt
      exact_mod_cast Nat.mul_pos hk hk
    · intro hlt
      have hk : k ≠ 0 := by
        rintro rfl
        simp at hlt
      exact_mod_cast Nat.pos_of_ne_zero hk
  · rw [if_neg h]
    push_neg at h
    unfold lt ofInt
    simp only [Nat.cast_one, mul_one]
    rw [isqrt_eq_sqrt]
    have step1 : ((Nat.sqrt (a.num.toNat * a.den) : ℤ) < (k : ℤ) * (a.den : ℤ)) ↔
        Nat.sqrt (a.num.toNat * a.den) < k * a.den := by
      constructor <;> intro hh <;> exact_mod_cast hh
    rw [step1, Nat.sqrt_lt]
    have step2 : a.num.toNat * a.den < k * a.den * (k * a.den) ↔
        a.num.toNat < k * k * a.den := by
      rw [show k * a.den * (k * a.den) = (k * k * a.den) * a.den by ring]
      exact Nat.mul_lt_mul_right a.dpos
    rw [step2]
    unfold toRat
    rw [div_lt_iff₀ a.den_pos_rat]
    have hnum : ((a.num.toNat : ℕ) : ℚ) = (a.num : ℚ) := by
      exact_mod_cast Int.toNat_of_nonneg h.le
    constructor
    · intro hh
      calc (a.num : ℚ) = (a.num.toNat : ℚ) := hnum.symm
        _ < ((k * k * a.den : ℕ) : ℚ) := by exact_mod_cast hh
        _ = (k : ℚ) * (k : ℚ) * (a.den : ℚ) := by push_cast; ring
    · intro hh
      have : (a.num : ℚ) < ((k * k * a.den : ℕ) : ℚ) := by
        calc (a.num : ℚ) < (k : ℚ) * (k : ℚ) * (a.den : ℚ) := hh
          _ = ((k * k * a.den : ℕ) : ℚ) := by push_cast; ring
      rw [← hnum] at this
      exact_mod_cast this

/-- The modelled `sqrt` is positive exactly when its argument is. -/
theorem zero_lt_sqrtQ_iff (a : Q) (ha : 0 ≤ a.toRat) :
    (ofInt 0).lt (sqrtQ a) ↔ 0 < a.toRat := by
  unfold sqrtQ
  by_cases h : a.num ≤ 0
  · have hz : a.num = 0 := le_antisymm h ((toRat_nonneg_iff a).mp ha)
    have hz' : a.toRat = 0 := by unfold toRat; rw [hz]; simp
    rw [if_pos h, hz']
    unfold lt ofInt
    simp
  · rw [if_neg h]
    push_neg at h
    unfold lt ofInt
    simp only [Nat.cast_one, zero_mul, mul_one]
    rw [isqrt_eq_sqrt]
    rw [toRat_pos_iff]
    constructor
    · intro _
      exact h
    · intro _
      have hpos : 0 < a.num.toNat * a.den :=
        Nat.mul_pos (by omega) a.dpos
      exact_mod_cast Nat.sqrt_pos.mpr hpos

end Q

theorem firstHit_some {α β : Type} (f : α → Option β) :
    ∀ (l : List α) (b : β), firstHit f l = some b → ∃ a, a ∈ l ∧ f a = some b := by
  intro l
  induction l with
  | nil =>
    intro b h
    simp [firstHit] at h
  | cons a rest ih =>
    intro b h
    rw [firstHit] at h
    cases hfa : f a with
    | some c =>
      rw [hfa] at h
      exact ⟨a, List.mem_cons_self a rest, by rw [hfa]; exact h⟩
    | none =>
      rw [hfa] at h
      obtain ⟨a2, ha2, hfa2⟩ := ih b h
      exact ⟨a2, List.mem_cons_of_mem a ha2, hfa2⟩

theorem tier1_spec (occ : List Rect) (e : EmpRec) (prefs : List ℤ) (a : Accept)
    (h : tier1 occ e prefs = some a) : a.sd = 0 ∧ a.rects.length = 2 := by
  obtain ⟨dist, _, h1⟩ := firstHit_some _ _ _ h
  obtain ⟨ang, _, h2⟩ := firstHit_some _ _ _ h1
  rw [Option.map_eq_some'] at h2
  obtain ⟨c, _, hc⟩ := h2
  rw [← hc]
  exact ⟨rfl, rfl⟩

theorem tier2_spec (occ : List Rect) (e : EmpRec) (prefs : List ℤ) (a : Accept)
    (h : tier2 occ e prefs = some a) : a.sd = 1 ∧ a.rects.length = 2 := by
  obtain ⟨dist, _, h1⟩ := firstHit_some _ _ _ h
  obtain ⟨ang, _, h2⟩ := firstHit_some _ _ _ h1
  rw [Option.map_eq_some'] at h2
  obtain ⟨c, _, hc⟩ := h2
  rw [← hc]
  exact ⟨rfl, rfl⟩

theorem tier3_spec (occ : List Rect) (e : EmpRec) (a : Accept)
    (h : tier3 occ e = some a) : a.sd = 5 ∧ a.rects.length = 2 := by
  obtain ⟨route, _, h1⟩ := firstHit_some _ _ _ h
  rw [Option.map_eq_some'] at h1
  obtain ⟨c, _, hc⟩ := h1
  rw [← hc]
  exact ⟨rfl, rfl⟩

theorem tier4_spec (occ : List Rect) (e : EmpRec) (a : Accept)
    (h : tier4 occ e = some a) : a.sd = 10 ∧ a.rects.length = 1 := by
  obtain ⟨dist, _, h1⟩ := firstHit_some _ _ _ h
  obtain ⟨ang, _, h2⟩ := firstHit_some _ _ _ h1
  rw [Option.map_eq_some'] at h2
  obtain ⟨c, _, hc⟩ := h2
  rw [← hc]
  exact ⟨rfl, rfl⟩

theorem tier5_spec (occ : List Rect) (e : EmpRec) (a : Accept)
    (h : tier5 occ e = some a) : a.sd = 20 ∧ a.rects.length = 1 := by
  obtain ⟨route, _, h1⟩ := firstHit_some _ _ _ h
  rw [Option.map_eq_some'] at h1
  obtain ⟨c, _, hc⟩ := h1
  rw [← hc]
  exact ⟨rfl, rfl⟩

theorem tier6_spec (occ : List Rect) (e : EmpRec) (a : Accept)
    (h : tier6 occ e = some a) : a.sd = 50 ∧ a.rects.length = 1 := by
  obtain ⟨sy, _, h1⟩ := firstHit_some _ _ _ h
  obtain ⟨sx, _, h2⟩ := firstHit_some _ _ _ h1
  by_cases hcol : anyCollision occ
      (mkLabelRect (Q.ofInt sx) (Q.ofInt sy) (label_width e) (label_height e)) (Q.ofInt 5)
  · rw [if_pos hcol] at h2
    exact absurd h2 (by simp)
  · rw [if_neg hcol] at h2
    have := Option.some.inj h2
    rw [← this]
    exact ⟨rfl, rfl⟩

theorem searchTiers_spec (occ : List Rect) (e : EmpRec) (prefs : List ℤ) (a : Accept)
    (h : searchTiers occ e prefs = some a) :
    ((a.sd = 0 ∨ a.sd = 1 ∨ a.sd = 5) ∧ a.rects.length = 2) ∨
    ((a.sd = 10 ∨ a.sd = 20 ∨ a.sd = 50) ∧ a.rects.length = 1) := by
  unfold searchTiers at h
  cases h1 : tier1 occ e prefs with
  | some b =>
    rw [h1] at h
    have hba : b = a := Option.some.inj h
    rw [hba] at h1
    exact Or.inl ⟨Or.inl (tier1_spec occ e prefs a h1).1, (tier1_spec occ e prefs a h1).2⟩
  | none =>
    rw [h1] at h
    cases h2 : tier2 occ e prefs with
    | some b =>
      rw [h2] at h
      have hba : b = a := Option.some.inj h
      rw [hba] at h2
      exact Or.inl ⟨Or.inr (Or.inl (tier2_spec occ e prefs a h2).1), (tier2_spec occ e prefs a h2).2⟩
    | none =>
      rw [h2] at h
      cases h3 : tier3 occ e with
      | some b =>
        rw [h3] at h
        have hba : b = a := Option.some.inj h
        rw [hba] at h3
        exact Or.inl ⟨Or.inr (Or.inr (tier3_spec occ e a h3).1), (tier3_spec occ e a h3).2⟩
      | none =>
        rw [h3] at h
        cases h4 : tier4 occ e with
        | some b =>
          rw [h4] at h
          have hba : b = a := Option.some.inj h
          rw [hba] at h4
          exact Or.inr ⟨Or.inl (tier4_spec occ e a h4).1, (tier4_spec occ e a h4).2⟩
        | none =>
          rw [h4] at h
          cases h5 : tier5 occ e with
          | some b =>
            rw [h5] at h
            have hba : b = a := Option.some.inj h
            rw [hba] at h5
            exact Or.inr ⟨Or.inr (Or.inl (tier5_spec occ e a h5).1), (tier5_spec occ e a h5).2⟩
          | none =>
            rw [h5] at h
            exact Or.inr ⟨Or.inr (Or.inr (tier6_spec occ e a h).1), (tier6_spec occ e a h).2⟩

theorem placeOne_pid (occ : List Rect) (e : EmpRec) (prefs : List ℤ) (n : ℕ) :
    (placeOne occ e prefs n).1.pid = e.pid := by
  unfold placeOne
  cases searchTiers occ e prefs <;> rfl

theorem placeOne_occ (occ : List Rect) (e : EmpRec) (prefs : List ℤ) (n : ℕ) :
    ∃ t, (placeOne occ e prefs n).2.1 = occ ++ t ∧
      (((placeOne occ e prefs n).2.2 = 0 ∨ (placeOne occ e prefs n).2.2 = 1 ∨
        (placeOne occ e prefs n).2.2 = 5) → t.length = 2) ∧
      (((placeOne occ e prefs n).2.2 = 10 ∨ (placeOne occ e prefs n).2.2 = 20 ∨
        (placeOne occ e prefs n).2.2 = 50) → t.length = 1) ∧
      ((placeOne occ e prefs n).2.2 = 100 → t = []) := by
  unfold placeOne
  cases h : searchTiers occ e prefs with
  | some a =>
    refine ⟨a.rects, rfl, ?_, ?_, ?_⟩ <;> intro hsd <;>
      rcases searchTiers_spec occ e prefs a h with ⟨hs, hl⟩ | ⟨hs, hl⟩ <;>
      simp only at hsd <;> first
      | exact hl
      | (exfalso; rcases hs with h1 | h1 | h1 <;> rcases hsd with h2 | h2 <;> omega)
      | (exfalso; rcases hs with h1 | h1 | h1 <;> omega)
  | none =>
    exact ⟨[], by simp, by intro hsd; simp only at hsd; omega,
      by intro hsd; simp only at hsd; omega, fun _ => rfl⟩

theorem placeLoop_occ (prefs : List ℤ) :
    ∀ (order : List EmpRec) (occ : List Rect) (acc : List LEntry) (score : ℕ),
      ∃ u, (placeLoop prefs order occ acc score).2.1 = occ ++ u := by
  intro order
  induction order with
  | nil =>
    intro occ acc score
    exact ⟨[], by simp [placeLoop]⟩
  | cons e rest ih =>
    intro occ acc score
    rw [placeLoop]
    obtain ⟨t, ht, _, _, _⟩ := placeOne_occ occ e prefs acc.length
    obtain ⟨u, hu⟩ := ih (placeOne occ e prefs acc.length).2.1 (acc ++ [(placeOne occ e prefs acc.length).1]) (score + (placeOne occ e prefs acc.length).2.2)
    exact ⟨t ++ u, by rw [hu, ht, List.append_assoc]⟩

theorem placeLoop_pids (prefs : List ℤ) :
    ∀ (order : List EmpRec) (occ : List Rect) (acc : List LEntry) (score : ℕ),
      ((placeLoop prefs order occ acc score).1).map (fun l => l.pid) =
        acc.map (fun l => l.pid) ++ order.map (fun e => e.pid) := by
  intro order
  induction order with
  | nil =>
    intro occ acc score
    simp [placeLoop]
  | cons e rest ih =>
    intro occ acc score
    rw [placeLoop]
    rw [ih]
    simp [placeOne_pid]

/-! ## Claim theorems -/

/-- C1: for every input record, one run of `try_placement` produces
exactly one placement result per employee — the label data lists the
employees' ids in order, one entry each, and no record is left
unplaced (the tier-7 forced fallback is unconditional). -/
theorem placer_totality (order : List EmpRec) (prefs : List ℤ) (base : List Rect) :
    ((try_placement order prefs base).1).map (fun l => l.pid) =
      order.map (fun e => e.pid) ∧
    ((try_placement order prefs base).1).length = order.length := by
  have h := placeLoop_pids prefs order base [] 0
  have h1 : ((try_placement order prefs base).1).map (fun l => l.pid) =
      order.map (fun e => e.pid) := by
    simpa [try_placement, tryPlacementFull] using h
  refine ⟨h1, ?_⟩
  have h2 := congrArg List.length h1
  simpa using h2

/-- C4: within one placement run, `occupied_rects` is append-only, and
each successful non-forced placement appends a fixed known count of
rectangles: exactly 2 for the tiers with score penalty 0, 1 or 5
(direct, extended, elbow) and exactly 1 for the tiers with penalty 10,
20 or 50; the forced tier (penalty 100) appends none, and across a
whole run the final set extends the seeded base. -/
theorem occupied_append_only (occ : List Rect) (e : EmpRec) (prefs : List ℤ) (n : ℕ)
    (order : List EmpRec) (base : List Rect) :
    (∃ t, (placeOne occ e prefs n).2.1 = occ ++ t ∧
      (((placeOne occ e prefs n).2.2 = 0 ∨ (placeOne occ e prefs n).2.2 = 1 ∨
        (placeOne occ e prefs n).2.2 = 5) → t.length = 2) ∧
      (((placeOne occ e prefs n).2.2 = 10 ∨ (placeOne occ e prefs n).2.2 = 20 ∨
        (placeOne occ e prefs n).2.2 = 50) → t.length = 1) ∧
      ((placeOne occ e prefs n).2.2 = 100 → t = [])) ∧
    (∃ u, (tryPlacementFull order prefs base).2.1 = base ++ u) :=
  ⟨placeOne_occ occ e prefs n, placeLoop_occ prefs order base [] 0⟩

/-- Witness for C4: a concrete tier-1 placement appends exactly two
rectangles to the seeded set. -/
theorem occupied_append_only_witness :
    ∃ t, (placeOne [picC3] empC3 anglesDefault 0).2.1 = [picC3] ++ t ∧ t.length = 2 := by
  obtain ⟨⟨t, ht, h2, _, _⟩, _⟩ := occupied_append_only [picC3] empC3 anglesDefault 0 [] []
  exact ⟨t, ht, h2 (Or.inl rfl)⟩

/-- C10: when the tier-7 forced fallback places a label (all tier
searches failed), nothing is appended to `occupied_rects`: the set
after the forced placement equals the set before it, so subsequent
collision tests ignore the forced label's area. -/
theorem forced_placement_frame (occ : List Rect) (e : EmpRec) (prefs : List ℤ) (n : ℕ)
    (h : searchTiers occ e prefs = none) :
    (placeOne occ e prefs n).2.1 = occ ∧ (placeOne occ e prefs n).2.2 = 100 ∧
    (placeOne occ e prefs n).1 = forcedPlacement e n := by
  unfold placeOne
  rw [h]
  exact ⟨rfl, rfl, rfl⟩

/-- Witness for C10: with a rectangle blocking the whole drawable area
every tier fails and the forced placement leaves `occupied_rects`
unchanged. -/
theorem forced_placement_frame_witness :
    (placeOne [blockRect] empC3 anglesDefault 0).2.1 = [blockRect] :=
  (forced_placement_frame [blockRect] empC3 anglesDefault 0 rfl).1

/-- C5 counterexample: on the spec's concrete scenario the first two
points do NOT end up at least 150 apart (the spreader converges once
the per-point force drops to the 0.01 threshold, at distance
≈ 148.595 < 150), and the displacement is NOT symmetric (the first
point moves ≈ 84.72 left while the second moves ≈ 58.88 right, because
later points see earlier points' already-updated positions). -/
theorem spread_scenario_cex :
    (get_distance ((spread_overlapping_simple initC5).getD 0 ptZero)
        ((spread_overlapping_simple initC5).getD 1 ptZero)).lt (Q.ofInt 150) ∧
    ¬ ((((Q.ofInt 100).sub ((spread_overlapping_simple initC5).getD 0 ptZero).x).qabs).eqv
        ((((spread_overlapping_simple initC5).getD 1 ptZero).x.sub (Q.ofInt 105)).qabs)) := by
  decide

/-- C5 amended: after spreading, the first two points are at least
148.5 apart but strictly less than 150 apart (the force threshold stops
the relaxation with residual overlap up to `0.01 * min_distance * 150`),
they move apart along the x-axis (first left of 100, second right of
105) with asymmetric displacement, and the third point remains exactly
at `(300, 300)`; in the 16x9 clamped variant the first point is pinned
at the margin `x = 100` and the final separation is the same. -/
theorem spread_scenario_amended :
    (let out := spread_overlapping_simple initC5
     ((out.getD 2 ptZero).x.eqv (Q.ofInt 300) ∧ (out.getD 2 ptZero).y.eqv (Q.ofInt 300)) ∧
     (out.getD 0 ptZero).y.eqv (Q.ofInt 100) ∧ (out.getD 1 ptZero).y.eqv (Q.ofInt 100) ∧
     (out.getD 0 ptZero).x.lt (Q.ofInt 100) ∧ (Q.ofInt 105).lt (out.getD 1 ptZero).x ∧
     ((Q.ofInt 297).div (Q.ofInt 2)).le (get_distance (out.getD 0 ptZero) (out.getD 1 ptZero)) ∧
     (get_distance (out.getD 0 ptZero) (out.getD 1 ptZero)).lt (Q.ofInt 150)) ∧
    (let out := spread_overlapping_employees 3056 3056 initC5
     ((out.getD 0 ptZero).x.eqv (Q.ofInt 100) ∧ (out.getD 0 ptZero).y.eqv (Q.ofInt 100)) ∧
     ((out.getD 2 ptZero).x.eqv (Q.ofInt 300) ∧ (out.getD 2 ptZero).y.eqv (Q.ofInt 300)) ∧
     ((Q.ofInt 297).div (Q.ofInt 2)).le (get_distance (out.getD 0 ptZero) (out.getD 1 ptZero)) ∧
     (get_distance (out.getD 0 ptZero) (out.getD 1 ptZero)).lt (Q.ofInt 150)) := by
  decide

/-- C3 counterexample: on a concrete tier-1 acceptance the rectangles
appended to `occupied_rects` are NOT the rectangle used in the accepting
collision test — both recorded line boxes have strictly smaller right
edges (and the room box a strictly smaller bottom edge) than the tested
combined `label_rect`. -/
theorem recorded_vs_tested_cex :
    (placeOne [picC3] empC3 anglesDefault 0).2.2 = 0 ∧
    (placeOne [picC3] empC3 anglesDefault 0).2.1 =
      [picC3, mkNameBox lxC3 lyC3 (Q.ofInt 100) (Q.ofInt 40),
       mkRoomBox lxC3 lyC3 (Q.ofInt 40) (Q.ofInt 80) (Q.ofInt 30)] ∧
    (mkNameBox lxC3 lyC3 (Q.ofInt 100) (Q.ofInt 40)).r.lt
      (mkLabelRect lxC3 lyC3 (label_width empC3) (label_height empC3)).r ∧
    (mkRoomBox lxC3 lyC3 (Q.ofInt 40) (Q.ofInt 80) (Q.ofInt 30)).r.lt
      (mkLabelRect lxC3 lyC3 (label_width empC3) (label_height empC3)).r ∧
    (mkRoomBox lxC3 lyC3 (Q.ofInt 40) (Q.ofInt 80) (Q.ofInt 30)).b.lt
      (mkLabelRect lxC3 lyC3 (label_width empC3) (label_height empC3)).b := by
  refine ⟨rfl, rfl, ?_, ?_, ?_⟩ <;> decide

/-- C3 amended: the rectangles recorded after a tier 1-3 acceptance use
the same padding but are strictly tighter than the tested combined
rectangle — both line boxes are contained in it, with right edges at
least `2 * padding_box` smaller and the room-box bottom exactly
`3 * padding_box` smaller; the recorded representation is never looser
than the tested one (tiers 4-6 record exactly the tested rectangle). -/
theorem recorded_tighter (e : EmpRec) (lx ly : Q)
    (hnh : 0 ≤ e.nameH.toRat) (hrh : 0 ≤ e.roomH.toRat) :
    TighterSpec e lx ly := by
  unfold TighterSpec RectInside mkLabelRect mkNameBox mkRoomBox room_y_pos label_width label_height padding_box
  simp only [Q.toRat_add, Q.toRat_sub, Q.toRat_mul, Q.toRat_qmax, Q.toRat_ofInt]
  norm_num
  refine ⟨⟨?_, ?_⟩, ⟨?_, ?_, ?_⟩, ?_, ?_, ?_⟩ <;>
    linarith [le_max_left e.nameW.toRat e.roomW.toRat,
      le_max_right e.nameW.toRat e.roomW.toRat]

/-- Witness for the amended C3 at a concrete tier-1 acceptance. -/
theorem recorded_tighter_witness : TighterSpec empC3 lxC3 lyC3 :=
  recorded_tighter empC3 lxC3 lyC3 (by norm_num [empC3, Q.toRat_ofInt])
    (by norm_num [empC3, Q.toRat_ofInt])

/-- C9: `count_nearby` counts exactly the points whose squared distance
from `(x, y)` is strictly between `0` and `radius²` — i.e. the other
points within the (default 300-unit) radius, where a distinct point at
exactly the same coordinates is not counted (its distance is 0, and the
comparison is strict). -/
theorem count_nearby_spec (x y : Q) (coords : List Pt) (radius : ℕ) :
    count_nearby x y coords radius =
      (coords.filter (fun p =>
        decide (0 < (p.x.toRat - x.toRat) * (p.x.toRat - x.toRat) +
          (p.y.toRat - y.toRat) * (p.y.toRat - y.toRat)) &&
        decide ((p.x.toRat - x.toRat) * (p.x.toRat - x.toRat) +
          (p.y.toRat - y.toRat) * (p.y.toRat - y.toRat) <
          (radius : ℚ) * (radius : ℚ)))).length := by
  have key : ∀ (l : List Pt) (c : ℕ),
      List.foldl (fun count p =>
        if (Q.sqrtQ ((((p.x.sub x)).mul ((p.x.sub x))).add
              (((p.y.sub y)).mul ((p.y.sub y))))).lt (Q.ofInt radius) ∧
            (Q.ofInt 0).lt (Q.sqrtQ ((((p.x.sub x)).mul ((p.x.sub x))).add
              (((p.y.sub y)).mul ((p.y.sub y))))) then count + 1 else count) c l
      = c + (l.filter (fun p =>
          decide (0 < (p.x.toRat - x.toRat) * (p.x.toRat - x.toRat) +
            (p.y.toRat - y.toRat) * (p.y.toRat - y.toRat)) &&
          decide ((p.x.toRat - x.toRat) * (p.x.toRat - x.toRat) +
            (p.y.toRat - y.toRat) * (p.y.toRat - y.toRat) <
            (radius : ℚ) * (radius : ℚ)))).length := by
    intro l
    induction l with
    | nil =>
      intro c
      simp
    | cons p rest ih =>
      intro c
      rw [List.foldl_cons, List.filter_cons]
      have hs : ((((p.x.sub x)).mul ((p.x.sub x))).add
          (((p.y.sub y)).mul ((p.y.sub y)))).toRat =
          (p.x.toRat - x.toRat) * (p.x.toRat - x.toRat) +
          (p.y.toRat - y.toRat) * (p.y.toRat - y.toRat) := by
        simp [Q.toRat_add, Q.toRat_mul, Q.toRat_sub]
      have h0 : 0 ≤ ((((p.x.sub x)).mul ((p.x.sub x))).add
          (((p.y.sub y)).mul ((p.y.sub y)))).toRat := by
        rw [hs]
        exact add_nonneg (mul_self_nonneg _) (mul_self_nonneg _)
      have hcond : ((Q.sqrtQ ((((p.x.sub x)).mul ((p.x.sub x))).add
            (((p.y.sub y)).mul ((p.y.sub y))))).lt (Q.ofInt radius) ∧
          (Q.ofInt 0).lt (Q.sqrtQ ((((p.x.sub x)).mul ((p.x.sub x))).add
            (((p.y.sub y)).mul ((p.y.sub y)))))) ↔
          (0 < (p.x.toRat - x.toRat) * (p.x.toRat - x.toRat) +
            (p.y.toRat - y.toRat) * (p.y.toRat - y.toRat) ∧
          (p.x.toRat - x.toRat) * (p.x.toRat - x.toRat) +
            (p.y.toRat - y.toRat) * (p.y.toRat - y.toRat) <
            (radius : ℚ) * (radius : ℚ)) := by
        rw [Q.sqrtQ_lt_ofNat_iff _ radius h0, Q.zero_lt_sqrtQ_iff _ h0, hs]
        tauto
      by_cases hc : (Q.sqrtQ ((((p.x.sub x)).mul ((p.x.sub x))).add
          (((p.y.sub y)).mul ((p.y.sub y))))).lt (Q.ofInt radius) ∧
          (Q.ofInt 0).lt (Q.sqrtQ ((((p.x.sub x)).mul ((p.x.sub x))).add
            (((p.y.sub y)).mul ((p.y.sub y)))))
      · rw [if_pos hc, ih]
        have hb : (decide (0 < (p.x.toRat - x.toRat) * (p.x.toRat - x.toRat) +
            (p.y.toRat - y.toRat) * (p.y.toRat - y.toRat)) &&
            decide ((p.x.toRat - x.toRat) * (p.x.toRat - x.toRat) +
            (p.y.toRat - y.toRat) * (p.y.toRat - y.toRat) <
            (radius : ℚ) * (radius : ℚ))) = true := by
          rw [Bool.and_eq_true, decide_eq_true_eq, decide_eq_true_eq]
          exact hcond.mp hc
        rw [hb]
        simp only [if_true]
        simp only [List.length_cons]
        omega
      · rw [if_neg hc, ih]
        have hb : (decide (0 < (p.x.toRat - x.toRat) * (p.x.toRat - x.toRat) +
            (p.y.toRat - y.toRat) * (p.y.toRat - y.toRat)) &&
            decide ((p.x.toRat - x.toRat) * (p.x.toRat - x.toRat) +
            (p.y.toRat - y.toRat) * (p.y.toRat - y.toRat) <
            (radius : ℚ) * (radius : ℚ))) = false := by
          rw [Bool.eq_false_iff]
          intro hcon
          rw [Bool.and_eq_true, decide_eq_true_eq, decide_eq_true_eq] at hcon
          exact hc (hcond.mpr hcon)
        rw [hb]
        simp only [Bool.false_eq_true, if_false]
  unfold count_nearby
  exact (key coords 0).trans (by simp)

theorem min_distance_toRat : min_distance.toRat = 150 := by
  unfold min_distance
  rw [Q.toRat_ofInt]
  norm_num

theorem spread_factor_toRat : spread_factor.toRat = 3 / 10 := by
  unfold spread_factor
  rw [Q.toRat_div, Q.toRat_ofInt, Q.toRat_ofInt]
  norm_num

theorem force_threshold_toRat : force_threshold.toRat = 1 / 100 := by
  unfold force_threshold
  rw [Q.toRat_div, Q.toRat_ofInt, Q.toRat_ofInt]
  norm_num

theorem ofInt_zero_toRat : (Q.ofInt 0).toRat = 0 := by
  rw [Q.toRat_ofInt]
  norm_num

theorem forceLoop_sum (i : ℕ) (x1 y1 : Q) :
    ∀ (l : List Pt) (j0 : ℕ) (acc : Q × Q),
      (((forceLoop i x1 y1 l j0 acc).1.toRat, (forceLoop i x1 y1 l j0 acc).2.toRat) : ℚ × ℚ) =
        ((acc.1.toRat, acc.2.toRat) : ℚ × ℚ) +
          ((l.enumFrom j0).map (fun jp =>
            if jp.1 = i then ((0 : ℚ), (0 : ℚ)) else contrib x1 y1 jp.2)).sum := by
  intro l
  induction l with
  | nil =>
    intro j0 acc
    simp [forceLoop]
  | cons p rest ih =>
    intro j0 acc
    obtain ⟨fx, fy⟩ := acc
    rw [forceLoop, List.enumFrom_cons, List.map_cons, List.sum_cons]
    dsimp only
    by_cases hij : i = j0
    · rw [if_pos hij, ih, if_pos hij.symm, Prod.mk_zero_zero, zero_add]
    · rw [if_neg hij, if_neg (fun h : j0 = i => hij h.symm)]
      by_cases hc : ((get_distance ⟨x1, y1⟩ p).lt min_distance ∧
          (Q.ofInt 0).lt (get_distance ⟨x1, y1⟩ p))
      · rw [if_pos hc, ih]
        have hd1 : (get_distance ⟨x1, y1⟩ p).toRat < 150 := by
          have := (Q.lt_iff _ _).mp hc.1
          rwa [min_distance_toRat] at this
        have hd0 : 0 < (get_distance ⟨x1, y1⟩ p).toRat := by
          have := (Q.lt_iff _ _).mp hc.2
          rwa [ofInt_zero_toRat] at this
        unfold contrib
        rw [if_pos ⟨hd0, hd1⟩]
        simp only [Q.toRat_add, Q.toRat_mul, Q.toRat_div, Q.toRat_sub, min_distance_toRat]
        rw [Prod.ext_iff]
        constructor <;> simp [Prod.fst_add, Prod.snd_add] <;> ring
      · rw [if_neg hc, ih]
        have hcond : ¬ (0 < (get_distance ⟨x1, y1⟩ p).toRat ∧
            (get_distance ⟨x1, y1⟩ p).toRat < 150) := by
          intro hcon
          exact hc ⟨(Q.lt_iff _ _).mpr (by rw [min_distance_toRat]; exact hcon.2),
            (Q.lt_iff _ _).mpr (by rw [ofInt_zero_toRat]; exact hcon.1)⟩
        unfold contrib
        rw [if_neg hcond]
        rw [Prod.mk_zero_zero, zero_add]

/-- C6 amended: in each spreader round, the repulsion force on the
point at index `i` equals the sum, over all other points at computed
distance strictly between 0 and `min_distance`, of the unit vector away
from the neighbor scaled by `(minDistance - actualDistance) /
minDistance` (pairs at distance exactly 0 and the point itself are
skipped, so no division by zero occurs); the point is then displaced by
`force * spreadFactor * minDistance` (then clamped) ONLY when
`|force_x| > 0.01` or `|force_y| > 0.01` — otherwise it does not move. -/
theorem force_formula (clampP : Pt → Pt) (pts : List Pt) (i : ℕ) (p : Pt)
    (hp : pts.get? i = some p) :
    (((forceLoop i p.x p.y pts 0 (Q.ofInt 0, Q.ofInt 0)).1.toRat,
      (forceLoop i p.x p.y pts 0 (Q.ofInt 0, Q.ofInt 0)).2.toRat) : ℚ × ℚ) =
      ((pts.enumFrom 0).map (fun jp =>
        if jp.1 = i then ((0 : ℚ), (0 : ℚ)) else contrib p.x p.y jp.2)).sum ∧
    (((1 : ℚ) / 100 < |(forceLoop i p.x p.y pts 0 (Q.ofInt 0, Q.ofInt 0)).1.toRat| ∨
      (1 : ℚ) / 100 < |(forceLoop i p.x p.y pts 0 (Q.ofInt 0, Q.ofInt 0)).2.toRat|) →
      ∃ q, pointStep clampP pts i = (pts.set i (clampP q), true) ∧
        q.x.toRat = p.x.toRat +
          (forceLoop i p.x p.y pts 0 (Q.ofInt 0, Q.ofInt 0)).1.toRat * ((3 : ℚ) / 10) * 150 ∧
        q.y.toRat = p.y.toRat +
          (forceLoop i p.x p.y pts 0 (Q.ofInt 0, Q.ofInt 0)).2.toRat * ((3 : ℚ) / 10) * 150) ∧
    (¬ ((1 : ℚ) / 100 < |(forceLoop i p.x p.y pts 0 (Q.ofInt 0, Q.ofInt 0)).1.toRat| ∨
      (1 : ℚ) / 100 < |(forceLoop i p.x p.y pts 0 (Q.ofInt 0, Q.ofInt 0)).2.toRat|) →
      pointStep clampP pts i = (pts, false)) := by
  have hsum := forceLoop_sum i p.x p.y pts 0 (Q.ofInt 0, Q.ofInt 0)
  have hzero : (((Q.ofInt 0).toRat, (Q.ofInt 0).toRat) : ℚ × ℚ) = 0 := by
    rw [ofInt_zero_toRat, Prod.mk_zero_zero]
  refine ⟨by rw [hsum]; rw [hzero, zero_add], ?_, ?_⟩
  · intro hthr
    have hcode : (force_threshold.lt (forceLoop i p.x p.y pts 0 (Q.ofInt 0, Q.ofInt 0)).1.qabs ∨
        force_threshold.lt (forceLoop i p.x p.y pts 0 (Q.ofInt 0, Q.ofInt 0)).2.qabs) := by
      rcases hthr with h | h
      · exact Or.inl ((Q.lt_iff _ _).mpr (by rw [force_threshold_toRat, Q.toRat_qabs]; exact h))
      · exact Or.inr ((Q.lt_iff _ _).mpr (by rw [force_threshold_toRat, Q.toRat_qabs]; exact h))
    refine ⟨⟨p.x.add (((forceLoop i p.x p.y pts 0 (Q.ofInt 0, Q.ofInt 0)).1.mul
        spread_factor).mul min_distance),
      p.y.add (((forceLoop i p.x p.y pts 0 (Q.ofInt 0, Q.ofInt 0)).2.mul
        spread_factor).mul min_distance)⟩, ?_, ?_, ?_⟩
    · unfold pointStep
      rw [hp]
      simp only [if_pos hcode]
    · simp only [Q.toRat_add, Q.toRat_mul, spread_factor_toRat, min_distance_toRat]
    · simp only [Q.toRat_add, Q.toRat_mul, spread_factor_toRat, min_distance_toRat]
  · intro hthr
    have hcode : ¬ (force_threshold.lt (forceLoop i p.x p.y pts 0 (Q.ofInt 0, Q.ofInt 0)).1.qabs ∨
        force_threshold.lt (forceLoop i p.x p.y pts 0 (Q.ofInt 0, Q.ofInt 0)).2.qabs) := by
      intro hcon
      apply hthr
      rcases hcon with h | h
      · refine Or.inl ?_
        have := (Q.lt_iff _ _).mp h
        rwa [force_threshold_toRat, Q.toRat_qabs] at this
      · refine Or.inr ?_
        have := (Q.lt_iff _ _).mp h
        rwa [force_threshold_toRat, Q.toRat_qabs] at this
    unfold pointStep
    rw [hp]
    simp only [if_neg hcode]

/-- Witness for the amended C6 at the concrete scenario input. -/
theorem force_formula_witness :
    (((forceLoop 0 (Q.ofInt 100) (Q.ofInt 100) initC5 0 (Q.ofInt 0, Q.ofInt 0)).1.toRat,
      (forceLoop 0 (Q.ofInt 100) (Q.ofInt 100) initC5 0 (Q.ofInt 0, Q.ofInt 0)).2.toRat) : ℚ × ℚ) =
      ((initC5.enumFrom 0).map (fun jp =>
        if jp.1 = 0 then ((0 : ℚ), (0 : ℚ))
        else contrib (Q.ofInt 100) (Q.ofInt 100) jp.2)).sum ∧
    (((1 : ℚ) / 100 < |(forceLoop 0 (Q.ofInt 100) (Q.ofInt 100) initC5 0 (Q.ofInt 0, Q.ofInt 0)).1.toRat| ∨
      (1 : ℚ) / 100 < |(forceLoop 0 (Q.ofInt 100) (Q.ofInt 100) initC5 0 (Q.ofInt 0, Q.ofInt 0)).2.toRat|) →
      ∃ q, pointStep id initC5 0 = (initC5.set 0 (id q), true) ∧
        q.x.toRat = (Q.ofInt 100).toRat +
          (forceLoop 0 (Q.ofInt 100) (Q.ofInt 100) initC5 0 (Q.ofInt 0, Q.ofInt 0)).1.toRat * ((3 : ℚ) / 10) * 150 ∧
        q.y.toRat = (Q.ofInt 100).toRat +
          (forceLoop 0 (Q.ofInt 100) (Q.ofInt 100) initC5 0 (Q.ofInt 0, Q.ofInt 0)).2.toRat * ((3 : ℚ) / 10) * 150) ∧
    (¬ ((1 : ℚ) / 100 < |(forceLoop 0 (Q.ofInt 100) (Q.ofInt 100) initC5 0 (Q.ofInt 0, Q.ofInt 0)).1.toRat| ∨
      (1 : ℚ) / 100 < |(forceLoop 0 (Q.ofInt 100) (Q.ofInt 100) initC5 0 (Q.ofInt 0, Q.ofInt 0)).2.toRat|) →
      pointStep id initC5 0 = (initC5, false)) :=
  force_formula id initC5 0 ⟨Q.ofInt 100, Q.ofInt 100⟩ rfl

/-- C6 counterexample (to the claim's unconditional displacement): two
points at distance 149 produce a nonzero repulsion force, yet the
round moves nothing — the displacement `force * spreadFactor *
minDistance` is not applied because `|force| ≤ 0.01`. -/
theorem force_threshold_cex :
    spreadRound (clamp16 3056 3056) initNearMiss = (initNearMiss, false) ∧
    ¬ ((forceLoop 0 (Q.ofInt 0) (Q.ofInt 0) initNearMiss 0
        (Q.ofInt 0, Q.ofInt 0)).1.eqv (Q.ofInt 0)) := by
  refine ⟨rfl, by decide⟩

theorem clamp_toRat (v lo hi : Q) :
    (clamp v lo hi).toRat = max lo.toRat (min hi.toRat v.toRat) := by
  unfold clamp
  rw [Q.toRat_qmax, Q.toRat_qmin]

theorem clamp16_inMargin (w h : ℤ) (hw : 200 ≤ w) (hh : 200 ≤ h) (p : Pt) :
    inMargin w h (clamp16 w h p) := by
  have hx : (clamp16 w h p).x.toRat =
      max ((100 : ℤ) : ℚ) (min ((w - 100 : ℤ) : ℚ) p.x.toRat) := by
    show (clamp p.x (Q.ofInt 100) (Q.ofInt (w - 100))).toRat = _
    rw [clamp_toRat, Q.toRat_ofInt, Q.toRat_ofInt]
  have hy : (clamp16 w h p).y.toRat =
      max ((100 : ℤ) : ℚ) (min ((h - 100 : ℤ) : ℚ) p.y.toRat) := by
    show (clamp p.y (Q.ofInt 100) (Q.ofInt (h - 100))).toRat = _
    rw [clamp_toRat, Q.toRat_ofInt, Q.toRat_ofInt]
  have hwq : (200 : ℚ) ≤ (w : ℚ) := by exact_mod_cast hw
  have hhq : (200 : ℚ) ≤ (h : ℚ) := by exact_mod_cast hh
  have hcw : ((w - 100 : ℤ) : ℚ) = (w : ℚ) - 100 := by push_cast; ring
  have hch : ((h - 100 : ℤ) : ℚ) = (h : ℚ) - 100 := by push_cast; ring
  have hc100 : ((100 : ℤ) : ℚ) = 100 := by norm_num
  unfold inMargin
  rw [hx, hy, hcw, hch, hc100]
  refine ⟨le_max_left _ _, ?_, le_max_left _ _, ?_⟩
  · exact max_le (by linarith) (min_le_left _ _)
  · exact max_le (by linarith) (min_le_left _ _)

theorem pointStep_shape (clampP : Pt → Pt) (pts : List Pt) (i : ℕ) :
    (pointStep clampP pts i).1 = pts ∨
    ∃ q, (pointStep clampP pts i).1 = pts.set i (clampP q) := by
  unfold pointStep
  cases hget : pts.get? i with
  | none => exact Or.inl rfl
  | some p =>
    dsimp only
    split
    · exact Or.inr ⟨_, rfl⟩
    · exact Or.inl rfl

theorem MarginInv_set (w h : ℤ) (hw : 200 ≤ w) (hh : 200 ≤ h) (pts0 pts : List Pt)
    (hI : MarginInv w h pts0 pts) (i : ℕ) (q : Pt) :
    MarginInv w h pts0 (pts.set i (clamp16 w h q)) := by
  intro j p hj
  rw [List.get?_eq_getElem?, List.getElem?_set] at hj
  by_cases hij : i = j
  · rw [if_pos hij] at hj
    by_cases hlen : i < pts.length
    · rw [if_pos hlen] at hj
      have hp : p = clamp16 w h q := (Option.some.inj hj).symm
      rw [hp]
      exact Or.inr (clamp16_inMargin w h hw hh q)
    · rw [if_neg hlen] at hj
      exact absurd hj (by simp)
  · rw [if_neg hij] at hj
    exact hI j p (by rw [List.get?_eq_getElem?]; exact hj)

theorem roundLoop_inv (w h : ℤ) (hw : 200 ≤ w) (hh : 200 ≤ h) (pts0 : List Pt) :
    ∀ (fuel i : ℕ) (pts : List Pt) (moved : Bool), MarginInv w h pts0 pts →
      MarginInv w h pts0 (roundLoop (clamp16 w h) fuel i pts moved).1 := by
  intro fuel
  induction fuel with
  | zero =>
    intro i pts moved hI
    exact hI
  | succ f ih =>
    intro i pts moved hI
    rw [roundLoop]
    apply ih
    rcases pointStep_shape (clamp16 w h) pts i with hs | ⟨q, hs⟩
    · rw [hs]
      exact hI
    · rw [hs]
      exact MarginInv_set w h hw hh pts0 pts hI i q

theorem spreadLoop_inv (w h : ℤ) (hw : 200 ≤ w) (hh : 200 ≤ h) (pts0 : List Pt) :
    ∀ (fuel : ℕ) (pts : List Pt), MarginInv w h pts0 pts →
      MarginInv w h pts0 (spreadLoop (clamp16 w h) fuel pts) := by
  intro fuel
  induction fuel with
  | zero =>
    intro pts hI
    exact hI
  | succ f ih =>
    intro pts hI
    rw [spreadLoop]
    have hround : MarginInv w h pts0 (spreadRound (clamp16 w h) pts).1 := by
      unfold spreadRound
      exact roundLoop_inv w h hw hh pts0 pts.length 0 pts false hI
    split
    · exact ih _ hround
    · exact hround

/-- C2 amended: in the 16x9 spreader, every point of the output either
still has its input position (points are only clamped when they are
actually moved) or lies within the boundary margin
`[100, boundary - 100]` on both axes; the simple variant applies no
clamping at all. -/
theorem spreader_boundary (w h : ℤ) (hw : 200 ≤ w) (hh : 200 ≤ h) (pts : List Pt)
    (i : ℕ) (p : Pt) (hp : (spread_overlapping_employees w h pts).get? i = some p) :
    pts.get? i = some p ∨ inMargin w h p := by
  have hbase : MarginInv w h pts pts := fun j q hq => Or.inl hq
  exact spreadLoop_inv w h hw hh pts max_iterations pts hbase i p hp

/-- Witness for the amended C2 at a concrete out-of-margin input. -/
theorem spreader_boundary_witness :
    ([⟨Q.ofInt 10, Q.ofInt 10⟩] : List Pt).get? 0 = some ⟨Q.ofInt 10, Q.ofInt 10⟩ ∨
    inMargin 3056 3056 ⟨Q.ofInt 10, Q.ofInt 10⟩ :=
  spreader_boundary 3056 3056 (by norm_num) (by norm_num) [⟨Q.ofInt 10, Q.ofInt 10⟩]
    0 ⟨Q.ofInt 10, Q.ofInt 10⟩ rfl

/-- C2 counterexample: a single point at `(10, 10)` (outside the
margin) is never moved by the spreader and stays outside
`[100, boundary - 100]`, so "for every point and at every iteration the
coordinates remain within the margin" fails as stated. -/
theorem spreader_boundary_cex :
    spread_overlapping_employees 3056 3056 [⟨Q.ofInt 10, Q.ofInt 10⟩] =
      [⟨Q.ofInt 10, Q.ofInt 10⟩] ∧
    ¬ inMargin 3056 3056 ⟨Q.ofInt 10, Q.ofInt 10⟩ := by
  refine ⟨rfl, ?_⟩
  unfold inMargin
  rw [Q.toRat_ofInt]
  norm_num

theorem foldTrials_spec (emps : List EmpRec) (base : List Rect) :
    ∀ (rest : List TrialCfg) (s : ℕ) (d : List LEntry) (t : String × ℤ),
      (List.foldl (trialStep emps base) ⟨some s, d, some t⟩ rest = ⟨some s, d, some t⟩ ∧
        ∀ c2 ∈ rest, s ≤ trialScore emps base c2) ∨
      (∃ pre c post, rest = pre ++ c :: post ∧ trialScore emps base c < s ∧
        (∀ c2 ∈ pre, trialScore emps base c < trialScore emps base c2) ∧
        (∀ c2 ∈ rest, trialScore emps base c ≤ trialScore emps base c2) ∧
        List.foldl (trialStep emps base) ⟨some s, d, some t⟩ rest = mkBest emps base c) := by
  intro rest
  induction rest with
  | nil =>
    intro s d t
    exact Or.inl ⟨rfl, by simp⟩
  | cons c0 rest ih =>
    intro s d t
    rw [List.foldl_cons]
    by_cases hlt : trialScore emps base c0 < s
    · have hstep : trialStep emps base ⟨some s, d, some t⟩ c0 = mkBest emps base c0 := by
        unfold trialStep scoreLt
        rw [if_pos (by simpa using hlt)]
      rw [hstep]
      rcases ih (trialScore emps base c0) (trialData emps base c0) (trialTag c0) with
        ⟨hkeep, hall⟩ | ⟨pre, c, post, hsplit, hlt2, hpre, hall, hres⟩
      · refine Or.inr ⟨[], c0, rest, by simp, hlt, by simp, ?_, hkeep⟩
        intro c2 hc2
        rcases List.mem_cons.mp hc2 with h | h
        · rw [h]
        · exact hall c2 h
      · refine Or.inr ⟨c0 :: pre, c, post, by rw [hsplit]; rfl, lt_trans hlt2 hlt, ?_, ?_, hres⟩
        · intro c2 hc2
          rcases List.mem_cons.mp hc2 with h | h
          · rw [h]
            exact hlt2
          · exact hpre c2 h
        · intro c2 hc2
          rcases List.mem_cons.mp hc2 with h | h
          · rw [h]
            exact hlt2.le
          · exact hall c2 (hsplit ▸ h)
    · have hstep : trialStep emps base ⟨some s, d, some t⟩ c0 = ⟨some s, d, some t⟩ := by
        unfold trialStep scoreLt
        rw [if_neg (by simpa using hlt)]
      rw [hstep]
      rcases ih s d t with ⟨hkeep, hall⟩ | ⟨pre, c, post, hsplit, hlt2, hpre, hall, hres⟩
      · refine Or.inl ⟨hkeep, ?_⟩
        intro c2 hc2
        rcases List.mem_cons.mp hc2 with h | h
        · rw [h]
          exact not_lt.mp hlt
        · exact hall c2 h
      · refine Or.inr ⟨c0 :: pre, c, post, by rw [hsplit]; rfl, hlt2, ?_, ?_, hres⟩
        · intro c2 hc2
          rcases List.mem_cons.mp hc2 with h | h
          · rw [h]
            exact lt_of_lt_of_le hlt2 (not_lt.mp hlt)
          · exact hpre c2 h
        · intro c2 hc2
          rcases List.mem_cons.mp hc2 with h | h
          · rw [h]
            exact le_trans hlt2.le (not_lt.mp hlt)
          · exact hall c2 (hsplit ▸ h)

theorem runTrials_spec (emps : List EmpRec) (base : List Rect) :
    ∃ pre c post, trialConfigs = pre ++ c :: post ∧
      (∀ c2 ∈ pre, trialScore emps base c < trialScore emps base c2) ∧
      (∀ c2 ∈ trialConfigs, trialScore emps base c ≤ trialScore emps base c2) ∧
      runTrials emps base = mkBest emps base c := by
  obtain ⟨tc0, tcrest, htc⟩ : ∃ a l, trialConfigs = a :: l := ⟨_, _, rfl⟩
  unfold runTrials
  rw [htc, List.foldl_cons]
  have hstep : trialStep emps base ⟨none, [], none⟩ tc0 = mkBest emps base tc0 := by
    unfold trialStep scoreLt
    rw [if_pos rfl]
  rw [hstep]
  rcases foldTrials_spec emps base tcrest (trialScore emps base tc0)
      (trialData emps base tc0) (trialTag tc0) with
    ⟨hkeep, hall⟩ | ⟨pre, c, post, hsplit, hlt2, hpre, hall, hres⟩
  · refine ⟨[], tc0, tcrest, by simp, by simp, ?_, hkeep⟩
    intro c2 hc2
    rcases List.mem_cons.mp hc2 with hh | hh
    · rw [hh]
    · exact hall c2 hh
  · refine ⟨tc0 :: pre, c, post, by rw [hsplit]; rfl, ?_, ?_, hres⟩
    · intro c2 hc2
      rcases List.mem_cons.mp hc2 with hh | hh
      · rw [hh]
        exact hlt2
      · exact hpre c2 hh
    · intro c2 hc2
      rcases List.mem_cons.mp hc2 with hh | hh
      · rw [hh]
        exact hlt2.le
      · exact hall c2 (hsplit ▸ hh)

theorem mem_trialConfigs (c : TrialCfg) (hc : c ∈ trialConfigs) :
    c.1 ∈ angle_configs ∧ c.2 ∈ sort_configs := by
  unfold trialConfigs at hc
  have hc2 : c ∈ (angle_configs.map
      (fun ap => sort_configs.map (fun sc => (ap, sc)))).flatten :=
    List.take_subset _ _ hc
  rw [List.mem_flatten] at hc2
  obtain ⟨l, hl, hcl⟩ := hc2
  rw [List.mem_map] at hl
  obtain ⟨ap, hap, hlap⟩ := hl
  rw [← hlap, List.mem_map] at hcl
  obtain ⟨sc, hsc, hcsc⟩ := hcl
  rw [← hcsc]
  exact ⟨hap, hsc⟩

theorem find_sort (sc : String × (EmpRec → EmpRec → Bool)) (hsc : sc ∈ sort_configs) :
    sort_configs.find? (fun c => c.1 == sc.1) = some sc := by
  fin_cases hsc <;> rfl

theorem find_angle (ap : List ℤ) (hap : ap ∈ angle_configs) :
    angle_configs.find? (fun l => l.headD 0 == ap.headD 0) = some ap := by
  fin_cases hap <;> rfl

theorem commit_eq (emps : List EmpRec) (base : List Rect) (c : TrialCfg)
    (hc : c ∈ trialConfigs) (hrun : runTrials emps base = mkBest emps base c) :
    calculate_label_positions emps base = trialData emps base c := by
  obtain ⟨hca, hcs⟩ := mem_trialConfigs c hc
  unfold calculate_label_positions
  rw [hrun]
  show (match (mkBest emps base c).bestCfg with
    | none => (mkBest emps base c).bestData
    | some cfg =>
      match sort_configs.find?
          (fun cc : String × (EmpRec → EmpRec → Bool) => cc.1 == cfg.1) with
      | none => (mkBest emps base c).bestData
      | some sc =>
        match angle_configs.find? (fun ap : List ℤ => ap.headD 0 == cfg.2) with
        | none => (mkBest emps base c).bestData
        | some ap => (try_placement (sortStable sc.2 emps) ap base).1) = _
  have hcfg : (mkBest emps base c).bestCfg = some (trialTag c) := rfl
  rw [hcfg]
  have htag1 : (trialTag c).1 = c.2.1 := rfl
  have htag2 : (trialTag c).2 = c.1.headD 0 := rfl
  dsimp only
  rw [htag1, htag2, find_sort c.2 hcs, find_angle c.1 hca]
  rfl

/-- C7: the optimizer evaluates exactly 15 (angle, order)
configurations (the capped product), keeps the configuration with the
lowest total penalty score — ties broken in favor of the first
configuration attaining the minimum in trial-enumeration order, so in
particular a 0-scoring configuration is selected — and commits the
result of re-running that winning configuration once more. -/
theorem optimizer_best_of_n (emps : List EmpRec) (base : List Rect) :
    trialConfigs.length = 15 ∧
    ∃ pre c post, trialConfigs = pre ++ c :: post ∧
      (∀ c2 ∈ pre, trialScore emps base c < trialScore emps base c2) ∧
      (∀ c2 ∈ trialConfigs, trialScore emps base c ≤ trialScore emps base c2) ∧
      (runTrials emps base).bestScore = some (trialScore emps base c) ∧
      (runTrials emps base).bestCfg = some (trialTag c) ∧
      calculate_label_positions emps base =
        (try_placement (sortStable c.2.2 emps) c.1 base).1 := by
  refine ⟨rfl, ?_⟩
  obtain ⟨pre, c, post, hsplit, hpre, hall, hrun⟩ := runTrials_spec emps base
  have hmem : c ∈ trialConfigs := by
    rw [hsplit]
    exact List.mem_append_right pre (List.mem_cons_self c post)
  exact ⟨pre, c, post, hsplit, hpre, hall, by rw [hrun]; rfl, by rw [hrun]; rfl,
    commit_eq emps base c hmem hrun⟩

/-- C8: `try_placement` is a pure deterministic function of its
(order, angles) arguments, so the committed re-run of the winning
configuration reproduces the winning trial's recorded label data and
score exactly — the committed output equals the best trial's
`label_data`. -/
theorem rerun_reproduces (emps : List EmpRec) (base : List Rect) :
    ∃ c, c ∈ trialConfigs ∧
      (runTrials emps base).bestData = (try_placement (sortStable c.2.2 emps) c.1 base).1 ∧
      (runTrials emps base).bestScore =
        some ((try_placement (sortStable c.2.2 emps) c.1 base).2) ∧
      calculate_label_positions emps base =
        (try_placement (sortStable c.2.2 emps) c.1 base).1 ∧
      calculate_label_positions emps base = (runTrials emps base).bestData := by
  obtain ⟨pre, c, post, hsplit, hpre, hall, hrun⟩ := runTrials_spec emps base
  have hmem : c ∈ trialConfigs := by
    rw [hsplit]
    exact List.mem_append_right pre (List.mem_cons_self c post)
  have hcommit := commit_eq emps base c hmem hrun
  exact ⟨c, hmem, by rw [hrun]; rfl, by rw [hrun]; rfl, hcommit, by rw [hcommit, hrun]; rfl⟩

end DsvMap
